import Mathlib

/-!
Verification development for the `simplex-bus` repository: a shallow
embedding of its message correlation and dispatch engine
(`createCommandBus` and its internal modules) together with theorems
about the engine's behaviour.

The embedding follows the JavaScript source closely:
- JS runtime values that can appear as payloads, envelope fields or
  parsed messages are modelled by the inductive `Value`;
- thrown JS values are modelled by `Thrown`; the bus's own error
  classes (`CommandBus*Error` from `errors.js`) by `BusError`;
- injected collaborator functions (parser, serializer, validators,
  trust guard, listeners) are opaque Lean functions stored in `Config`,
  returning `Except Thrown _` so that a throwing collaborator is
  representable;
- the mutable state owned by one bus instance (disposed flag, pending
  request store, handler registry) plus the observable effect history
  (logger calls, transport sends, listener invocations, promise
  settlements) is the record `BusState`; promise settlement is recorded
  in an id-keyed map so that "settled exactly once" is expressible.
-/

namespace SimplexBus

/-- A JavaScript runtime value, as far as the bus inspects one:
`undefined`, `null`, booleans, numbers (the bus only compares and
branches on them, so `Int` suffices), strings, arrays and plain
objects. Objects are encoded as cons-chains (`objCons key val rest`)
ending in `emptyObj`, so the type stays a plain (non-nested) inductive;
field lookup takes the first occurrence of a key, matching JS object
construction. Arrays carry an opaque tag: the bus only ever asks
`Array.isArray`, never inspects elements. -/
inductive Value : Type where
  | undefV : Value
  | nullV : Value
  | boolV : Bool → Value
  | numV : Int → Value
  | strV : String → Value
  | arrV : Nat → Value
  | emptyObj : Value
  | objCons : String → Value → Value → Value
deriving DecidableEq

/-- JS truthiness: `undefined`, `null`, `false`, `0` and `""` are falsy,
everything else (objects, arrays, non-zero numbers, non-empty strings)
is truthy. -/
def truthy : Value → Bool
  | .undefV => false
  | .nullV => false
  | .boolV b => b
  | .numV n => n != 0
  | .strV s => s ≠ ""
  | .arrV _ => true
  | .emptyObj => true
  | .objCons _ _ _ => true

/-- Property access `v.f` on an already-normalized object: `undefined`
when the receiver is not an object or the field is absent. -/
def getField : Value → String → Value
  | .objCons k v rest, f => if k = f then v else getField rest f
  | _, _ => .undefV

/-- Builds an object value from a field list (later duplicates are
shadowed by earlier ones under `getField`; the bus never constructs
duplicates). -/
def mkObj (fs : List (String × Value)) : Value :=
  fs.foldr (fun kv rest => .objCons kv.1 kv.2 rest) .emptyObj

/-- Embeds `isNonEmptyString` from `internal/shared.js`. -/
def isNonEmptyStringV : Value → Bool
  | .strV s => s.length > 0
  | _ => false

/-- Embeds `isObject` from `internal/shared.js`: non-null, `typeof`
object, and not an array. -/
def isObjectV : Value → Bool
  | .emptyObj => true
  | .objCons _ _ _ => true
  | _ => false

/-- Embeds `getStringSizeInBytes` from `internal/shared.js` (UTF-8 byte
length via `TextEncoder`). -/
def getStringSizeInBytes (s : String) : Nat :=
  s.utf8ByteSize

/-- The bus's own error classes, from `errors.js`. Constructors carry
the data the corresponding class stores (or the message string where
only the message distinguishes instances). -/
inductive BusError : Type where
  | disposedE : String → BusError
  | validationE : String → BusError
  | serializationE : String → BusError
  | invalidMessageE : String → BusError
  | timeoutE : String → Int → BusError
  | abortedE : String → BusError
  | remoteE : String → Value → BusError
  | limitE : BusError
  | typeE : String → BusError
deriving DecidableEq

/-- A thrown JS value: one of the bus's own error instances, some other
`Error` instance (only its `message` is ever read), or a non-`Error`
value. -/
inductive Thrown : Type where
  | busErr : BusError → Thrown
  | errObj : String → Thrown
  | nonError : Value → Thrown
deriving DecidableEq

instance exceptDecEq {ε α : Type} [DecidableEq ε] [DecidableEq α] :
    DecidableEq (Except ε α) := fun a b =>
  match a, b with
  | .ok x, .ok y =>
    if h : x = y then .isTrue (by rw [h]) else .isFalse (fun hc => h (by injection hc))
  | .error x, .error y =>
    if h : x = y then .isTrue (by rw [h]) else .isFalse (fun hc => h (by injection hc))
  | .ok _, .error _ => .isFalse (fun hc => Except.noConfusion hc)
  | .error _, .ok _ => .isFalse (fun hc => Except.noConfusion hc)

/-- The `message` property of each bus error class (template literals
from `errors.js`, built by concatenation). Only the classes whose
message the code later reads matter; all are given for totality. -/
def BusError.msgText : BusError → String
  | .disposedE m => m
  | .validationE m => m
  | .serializationE m => m
  | .invalidMessageE m => m
  | .timeoutE t ms => "Request timeout for type \"" ++ t ++ "\" after " ++ toString ms ++ "ms"
  | .abortedE t => "Request aborted for type \"" ++ t ++ "\""
  | .remoteE t _ => "Remote handler returned an error for type \"" ++ t ++ "\""
  | .limitE => "Pending request limit reached."
  | .typeE m => m

/-- Whether a thrown value is `instanceof CommandBusValidationError`. -/
def Thrown.isValidationErr : Thrown → Bool
  | .busErr (.validationE _) => true
  | _ => false

/-- Whether a thrown value is `instanceof Error` (bus errors extend
`Error`), and the `message` read from it; non-`Error` values map to
the fallback text used by `toRemoteErrorPayload`. -/
def Thrown.remoteMessage : Thrown → String
  | .busErr e => e.msgText
  | .errObj m => m
  | .nonError _ => "Unknown error"

/-- A normalized inbound message, the result of
`normalizeIncomingMessage` plus the field accesses the dispatcher
performs afterwards (`type`, `id`, `nonce`, `payload`, `isError`). An
absent field is `Option.none` (for the validated string fields) or
`Value.undefV` (for `payload` / `isError`, which are never validated). -/
structure Msg : Type where
  type : String
  id : Option String
  nonce : Option String
  payload : Value
  isError : Value
deriving DecidableEq

/-- Raw input to `receive`: a string (to be parsed) or an already
structured value. -/
inductive Raw : Type where
  | rawStr : String → Raw
  | rawVal : Value → Raw
deriving DecidableEq

/-- Embeds `normalizeIncomingMessage` from `internal/message.js`: parse
strings with the injected parser (which may throw), then require an
object with a non-empty string `type`, and `id` / `nonce` that are
non-empty strings when present. -/
def normalizeIncomingMessage (parser : String → Except Thrown Value) (raw : Raw) :
    Except Thrown Msg :=
  match (match raw with
    | .rawStr s => parser s
    | .rawVal v => .ok v) with
  | .error e => .error e
  | .ok parsed =>
    if ¬ isObjectV parsed then
      .error (.busErr (.invalidMessageE "Incoming message must be an object."))
    else if ¬ isNonEmptyStringV (getField parsed "type") then
      .error (.busErr (.invalidMessageE "Incoming message must include a non-empty string `type`."))
    else if getField parsed "id" ≠ .undefV ∧ ¬ isNonEmptyStringV (getField parsed "id") then
      .error (.busErr (.invalidMessageE "Incoming message `id` must be a non-empty string when provided."))
    else if getField parsed "nonce" ≠ .undefV ∧ ¬ isNonEmptyStringV (getField parsed "nonce") then
      .error (.busErr (.invalidMessageE "Incoming message `nonce` must be a non-empty string when provided."))
    else
      .ok
        { type := match getField parsed "type" with | .strV s => s | _ => ""
          id := match getField parsed "id" with | .strV s => some s | _ => none
          nonce := match getField parsed "nonce" with | .strV s => some s | _ => none
          payload := getField parsed "payload"
          isError := getField parsed "isError" }

/-- Response trust modes accepted by the configuration. -/
inductive TrustMode : Type where
  | auto : TrustMode
  | strict : TrustMode
  | permissive : TrustMode
deriving DecidableEq

/-- One entry of the `validators` configuration object: absent, present
but not callable, or a callable predicate (which may throw). -/
inductive VEntry : Type where
  | vnone : VEntry
  | vnotFn : VEntry
  | vfn : (Value → Except Thrown Value) → VEntry

/-- The context object handed to the `isTrustedResponse` guard by
`createReceive`. -/
structure TrustCtx : Type where
  requestType : String
  requestId : String
  responseType : String
  requestNonce : String
  responseNonce : Option String
  payload : Value
  isError : Bool
  raw : Raw

/-- The observable behaviour of one registered listener when invoked
with a payload: return a non-promise value, throw synchronously, return
a promise that fulfils, or return a promise that rejects (handled later
by the `.catch` continuation installed by the dispatch loop). Listener
identities are natural numbers; `typeof handler === 'function'` holds
for all of them. -/
inductive LRes : Type where
  | ret : LRes
  | lthrow : Thrown → LRes
  | asyncOk : LRes
  | asyncRej : Thrown → LRes

/-- A bus configuration after `validateCreateConfig` has accepted it:
the immutable data plus the injected collaborator functions, modelled
as opaque Lean functions. `hasOnReceive` records whether an `onReceive`
registration function was supplied (it feeds the `auto` trust mode).
`listenerBeh` gives each listener identity its behaviour. -/
structure Config : Type where
  allowedTypes : List String
  validators : String → VEntry
  parser : String → Except Thrown Value
  serializer : Value → Except Thrown String
  responseSuffix : String
  maxIncomingMessageBytes : Nat
  maxPendingRequests : Nat
  responseTrustMode : TrustMode
  isTrustedResponse : TrustCtx → Except Thrown Value
  hasOnReceive : Bool
  listenerBeh : Nat → Value → LRes

/-- Embeds `isStrictResponseTrust` from `createCommandBus`:
`responseTrustMode === 'strict' || (responseTrustMode === 'auto' &&
typeof onReceive === 'function')`. -/
def isStrictResponseTrust (cfg : Config) : Bool :=
  decide (cfg.responseTrustMode = .strict ∨
    (cfg.responseTrustMode = .auto ∧ cfg.hasOnReceive = true))

/-- Embeds `isAllowedType`: `allowAllTypes || allowedTypeSet.has(type)`
where `allowAllTypes` is `allowedTypes.length === 0`. -/
def isAllowedType (cfg : Config) (type : String) : Bool :=
  cfg.allowedTypes.isEmpty || cfg.allowedTypes.contains type

/-- Embeds `getResponseType`: the template literal
`type + responseSuffix`. -/
def getResponseType (cfg : Config) (type : String) : String :=
  type ++ cfg.responseSuffix

/-- Embeds `validatePayload` / `createPayloadValidator`: no validator
means trivial success; a non-callable entry is a `ValidationError`; a
callable one is invoked, a falsy return raises `ValidationError`, a
thrown `CommandBusValidationError` is re-thrown as-is and any other
thrown value is wrapped. -/
def validatePayload (cfg : Config) (type : String) (payload : Value) :
    Except BusError Unit :=
  match cfg.validators type with
  | .vnone => .ok ()
  | .vnotFn =>
    .error (.validationE ("Validator for type \"" ++ type ++ "\" is not a function."))
  | .vfn f =>
    match f payload with
    | .ok v =>
      if truthy v then .ok ()
      else .error (.validationE ("Invalid payload for type \"" ++ type ++ "\"."))
    | .error e =>
      match e with
      | .busErr (.validationE m) => .error (.validationE m)
      | _ => .error (.validationE ("Validator failed for type \"" ++ type ++ "\"."))

/-- One entry of the pending-request store. `hasSignal` records that an
abort signal was supplied (and hence an abort listener attached);
`timeoutMs` is the timeout captured by the timer callback closure. -/
structure Pending : Type where
  type : String
  expectedResponseType : String
  nonce : String
  hasSignal : Bool
  timeoutMs : Int
deriving DecidableEq

/-- The settlement state of the promise returned by one `request`
call. -/
inductive PState : Type where
  | unsettled : PState
  | resolvedP : Value → PState
  | rejectedP : BusError → PState
deriving DecidableEq

/-- Whether a promise state is settled. -/
def PState.isSettled : PState → Bool
  | .unsettled => false
  | _ => true

/-- The mutable state owned by one bus instance plus the observable
history of its effects. `pending` and `handlers` are the two id-keyed
stores; `promises` records, per correlation id, the settlement state of
the promise returned by `request` (a JS promise ignores settlements
after the first; recording the last write makes the single-settlement
theorems depend on the store's guard discipline, which is what the code
actually relies on). `log` lists `safeLogError` calls, `sent` the
strings passed to the transport `sendFn`, `calls` the listener
invocations `(listener, payload)`, and `hasUnsub` / `unsubCalls` the
unsubscribe function returned by `onReceive` and how often it ran. -/
structure BusState : Type where
  disposed : Bool
  pending : List (String × Pending)
  promises : List (String × PState)
  handlers : List (String × List Nat)
  log : List String
  sent : List String
  calls : List (Nat × Value)
  hasUnsub : Bool
  unsubCalls : Nat
deriving DecidableEq

/-- Association-list lookup (first occurrence), modelling `Map.get`. -/
def alookup {α : Type} : List (String × α) → String → Option α
  | [], _ => none
  | (k, v) :: rest, key => if k = key then some v else alookup rest key

/-- Association-list update, modelling `Map.set`: replace in place when
the key exists (JS maps keep the original position), append
otherwise. -/
def aset {α : Type} : List (String × α) → String → α → List (String × α)
  | [], key, v => [(key, v)]
  | (k, w) :: rest, key, v =>
    if k = key then (k, v) :: rest else (k, w) :: aset rest key v

/-- Association-list removal, modelling `Map.delete`. -/
def aerase {α : Type} : List (String × α) → String → List (String × α)
  | [], _ => []
  | (k, v) :: rest, key =>
    if k = key then aerase rest key else (k, v) :: aerase rest key

/-- Embeds `safeLogError`: the logger sink is opaque, so a call is
recorded as one log entry (tagged by the leading message string). -/
def safeLogError (st : BusState) (entry : String) : BusState :=
  { st with log := st.log ++ [entry] }

/-- Embeds `pendingRequests.clear(id)`: removes the entry; cancelling
the timer and detaching the abort listener are represented by the fact
that `step` fires those mechanisms only while the entry exists. -/
def clearPending (st : BusState) (id : String) : BusState :=
  { st with pending := aerase st.pending id }

/-- Value update at a key in an association list, leaving other entries
untouched (and adding nothing when the key is absent). -/
def updAt {α : Type} : List (String × α) → String → α → List (String × α)
  | [], _, _ => []
  | (k, w) :: rest, key, v =>
    if k = key then (k, v) :: updAt rest key v else (k, w) :: updAt rest key v

/-- Records a settlement of the promise for `id` (a call to the stored
`resolve` or `reject`). Updates the entry when present; ids without a
`request`-created promise have nothing to settle. -/
def settlePromise (st : BusState) (id : String) (out : PState) : BusState :=
  { st with promises := updAt st.promises id out }

/-- Embeds `pendingRequests.rejectAll(error)`: iterate over the entries
(the snapshot taken at iteration start; `clear` only removes the
current entry), clearing each and rejecting it with `error`. -/
def rejectAll (st : BusState) (e : BusError) : BusState :=
  st.pending.foldl (fun acc kv => settlePromise (clearPending acc kv.1) kv.1 (.rejectedP e)) st

/-- Embeds `sendEnvelope(message, {skipTypeGuard})` from
`createSendEnvelope`: disposed guard, allow-list guard (unless
skipped), payload validation, serialization (wrapping a throwing
serializer as `SerializationError`), then the transport `sendFn`.
`mtype` is `message.type`, a string at every call site; `message` is
the envelope object literal handed to the serializer. -/
def sendEnvelope (cfg : Config) (st : BusState) (mtype : String) (message : Value)
    (skipTypeGuard : Bool) : Except BusError BusState :=
  if st.disposed then .error (.disposedE "Bus is disposed.")
  else if ¬ skipTypeGuard ∧ ¬ isAllowedType cfg mtype then
    .error (.validationE ("Message type not allowed: \"" ++ mtype ++ "\"."))
  else
    match validatePayload cfg mtype (getField message "payload") with
    | .error e => .error e
    | .ok _ =>
      match cfg.serializer message with
      | .error _ =>
        .error (.serializationE ("Failed to serialize message type \"" ++ mtype ++ "\"."))
      | .ok s => .ok { st with sent := st.sent ++ [s] }

/-- Embeds `send(type, payload)`: non-empty-string check on `type`,
then `sendEnvelope({type, payload})` with the type guard active. -/
def send (cfg : Config) (st : BusState) (type : String) (payload : Value) :
    Except BusError BusState :=
  if ¬ type.length > 0 then .error (.typeE "`type` must be a non-empty string.")
  else sendEnvelope cfg st type (mkObj [("type", .strV type), ("payload", payload)]) false

/-- Embeds `sendResponse` from `createSendResponse`: `false` when the
inbound message carried no id; otherwise sends the response envelope
(type `getResponseType(message.type)`, the inbound id and nonce, the
`isError` flag) with the type guard skipped. -/
def sendResponse (cfg : Config) (st : BusState) (msg : Msg) (payload : Value)
    (isError : Bool) : Except BusError (Bool × BusState) :=
  match msg.id with
  | none => .ok (false, st)
  | some i =>
    let rt := getResponseType cfg msg.type
    let env := mkObj [("type", .strV rt), ("payload", payload), ("id", .strV i),
      ("nonce", match msg.nonce with | some n => .strV n | none => .undefV),
      ("isError", .boolV isError)]
    match sendEnvelope cfg st rt env true with
    | .ok st' => .ok (true, st')
    | .error e => .error e

/-- A JS number argument as `request` inspects one: a finite value, or
anything for which `Number.isFinite` is false (NaN, infinities, and
non-number values reached through an options object). -/
inductive JNum : Type where
  | fin : Int → JNum
  | nonFinite : JNum
deriving DecidableEq

/-- The `signal` option: `isSignal` models
`signal instanceof AbortSignal`, `aborted` its `aborted` flag at call
time. -/
structure SignalV : Type where
  isSignal : Bool
  aborted : Bool
deriving DecidableEq

/-- The `timeoutOrOptions` argument of `request`: absent (undefined), a
number, an options object with optional `timeout` (none for
absent/nullish, which defaults) and optional `signal` fields, or a
value that is neither number, undefined nor object. -/
inductive ReqArg : Type where
  | noArg : ReqArg
  | numArg : JNum → ReqArg
  | objArg : Option JNum → Option SignalV → ReqArg
  | badArg : ReqArg
deriving DecidableEq

/-- Embeds `parseRequestOptions` from `internal/config.js`: a number or
undefined yields `{timeout: arg ?? 5000, signal: undefined}`; a
non-object raises `TypeError`; an object yields
`{timeout: obj.timeout ?? 5000, signal: obj.signal}`. -/
def parseRequestOptions : ReqArg → Except BusError (JNum × Option SignalV)
  | .noArg => .ok (.fin 5000, none)
  | .numArg n => .ok (n, none)
  | .badArg => .error (.typeE "Request options must be a number or an object.")
  | .objArg t s => .ok (t.getD (.fin 5000), s)

/-- The outcome of a `request` call: a synchronous throw (no promise,
no state change — every throw in `createRequest` happens before any
store mutation or send), or a created promise together with the state
after the executor ran. -/
inductive ReqResult : Type where
  | threw : BusError → ReqResult
  | promised : BusState → ReqResult
deriving DecidableEq

/-- The tail of the `request` promise executor once no
already-aborted signal short-circuited: insert the pending entry, then
try to send the envelope `{type, payload, id, nonce}`; a throwing send
clears the entry and rejects the promise with that error. -/
def requestCommit (cfg : Config) (st : BusState) (type : String) (payload : Value)
    (id nonce expectedResponseType : String) (hasSignal : Bool) (timeout : Int) : ReqResult :=
  let pendingRec : Pending :=
    { type := type, expectedResponseType := expectedResponseType, nonce := nonce,
      hasSignal := hasSignal, timeoutMs := timeout }
  let st2 := { st with pending := aset st.pending id pendingRec }
  let env := mkObj [("type", .strV type), ("payload", payload),
    ("id", .strV id), ("nonce", .strV nonce)]
  match sendEnvelope cfg st2 type env false with
  | .ok st3 => .promised st3
  | .error e => .promised (settlePromise (clearPending st2 id) id (.rejectedP e))

/-- Embeds `request(type, payload, optionsOrTimeout)` from
`createRequest`: disposed guard, argument validation (`TypeError`),
correlation id and nonce generation (`id` and `nonce` stand for the
values produced by `generateId()` and `getRandomHex(16)`), the
`maxPendingRequests` limit (`LimitError`), then the promise executor:
start the timer, handle an already-aborted signal (reject without
inserting or sending), attach the abort listener, insert the entry and
send. -/
def request (cfg : Config) (st : BusState) (type : String) (payload : Value)
    (arg : ReqArg) (id nonce : String) : ReqResult :=
  if st.disposed then .threw (.disposedE "Bus is disposed.")
  else if ¬ type.length > 0 then .threw (.typeE "`type` must be a non-empty string.")
  else
    match parseRequestOptions arg with
    | .error e => .threw e
    | .ok (timeoutN, signal) =>
      match timeoutN with
      | .nonFinite =>
        .threw (.typeE "`timeout` must be a finite number greater than or equal to 0.")
      | .fin timeout =>
        if timeout < 0 then
          .threw (.typeE "`timeout` must be a finite number greater than or equal to 0.")
        else if (match signal with | some s => !s.isSignal | none => false) then
          .threw (.typeE "`signal` must be an instance of AbortSignal when provided.")
        else
          let expectedResponseType := getResponseType cfg type
          if st.pending.length ≥ cfg.maxPendingRequests then .threw .limitE
          else
            let st1 := { st with promises := aset st.promises id .unsettled }
            match signal with
            | some s =>
              if s.aborted then
                .promised (settlePromise st1 id (.rejectedP (.abortedE type)))
              else requestCommit cfg st1 type payload id nonce expectedResponseType true timeout
            | none => requestCommit cfg st1 type payload id nonce expectedResponseType false timeout

/-- Embeds `on(type, handler)` from `createHandlerRegistry`: disposed
guard, non-empty type, allow-list check, then add the handler to the
type's set (created on first registration; `Set.add` deduplicates). -/
def «on» (cfg : Config) (st : BusState) (type : String) (handler : Nat) :
    Except BusError BusState :=
  if st.disposed then .error (.disposedE "Bus is disposed.")
  else if ¬ type.length > 0 then .error (.typeE "`type` must be a non-empty string.")
  else if ¬ isAllowedType cfg type then
    .error (.validationE ("Handler registration failed: type \"" ++ type ++ "\" not allowed."))
  else
    let cur := (alookup st.handlers type).getD []
    let updated := if handler ∈ cur then cur else cur ++ [handler]
    .ok { st with handlers := aset st.handlers type updated }

/-- Embeds `once(type, handler)`: after the `typeof handler` check
(which holds for every modelled handler identity) it wraps the handler
in a fresh self-unregistering function and registers that wrapper via
`on`; `wrapped` stands for the wrapper's identity. -/
def once (cfg : Config) (st : BusState) (type : String) (wrapped : Nat) :
    Except BusError BusState :=
  «on» cfg st type wrapped

/-- Embeds `off(type, handler?)`: disposed guard, non-empty type;
`false` when no set exists for the type; with no handler argument the
whole entry is removed and `true` returned; otherwise exactly that
handler is removed (returning whether it existed) and the entry is
dropped when its set becomes empty. -/
def off (_cfg : Config) (st : BusState) (type : String) (handler : Option Nat) :
    Except BusError (Bool × BusState) :=
  if st.disposed then .error (.disposedE "Bus is disposed.")
  else if ¬ type.length > 0 then .error (.typeE "`type` must be a non-empty string.")
  else
    match alookup st.handlers type with
    | none => .ok (false, st)
    | some listeners =>
      match handler with
      | none => .ok (true, { st with handlers := aerase st.handlers type })
      | some h =>
        let didDelete := decide (h ∈ listeners)
        let remaining := listeners.filter (fun x => x ≠ h)
        let newHandlers :=
          if remaining.length = 0 then aerase st.handlers type
          else aset st.handlers type remaining
        .ok (didDelete, { st with handlers := newHandlers })

/-- Embeds `dispose()`: a no-op when already disposed; otherwise flip
the flag, reject every pending request with
`DisposedError('Bus disposed while awaiting response.')`, clear all
handlers, invoke the unsubscribe function returned by `onReceive` when
one exists, and forget it. -/
def dispose (st : BusState) : BusState :=
  if st.disposed then st
  else
    let st1 := { st with disposed := true }
    let st2 := rejectAll st1 (.disposedE "Bus disposed while awaiting response.")
    let st3 := { st2 with handlers := [] }
    if st3.hasUnsub then { st3 with unsubCalls := st3.unsubCalls + 1, hasUnsub := false }
    else st3

/-- Embeds `toRemoteErrorPayload` from `createReceive`:
`{message: error instanceof Error ? error.message : 'Unknown error'}`. -/
def toRemoteErrorPayload (e : Thrown) : Value :=
  mkObj [("message", .strV e.remoteMessage)]

/-- Embeds `handleListenerFailure(message, error)`: log the failure;
when the inbound message carried an id, try to send an automatic error
response with the remote-error payload, logging (not throwing) a
failure of that send. -/
def handleListenerFailure (cfg : Config) (msg : Msg) (e : Thrown) (st : BusState) : BusState :=
  let st1 := safeLogError st ("[SimplexBus] Handler failed for type \"" ++ msg.type ++ "\"")
  match msg.id with
  | none => st1
  | some _ =>
    match sendResponse cfg st1 msg (toRemoteErrorPayload e) true with
    | .ok (_, st2) => st2
    | .error _ => safeLogError st1 "[SimplexBus] Failed to send handler error response"

/-- One iteration of the listener dispatch loop of `createReceive`:
record the invocation, then run the listener; a synchronous throw runs
`handleListenerFailure` immediately, a returned promise that will
reject is collected for its `.catch` continuation. -/
def loopStep (cfg : Config) (msg : Msg) (acc : BusState × List Thrown) (l : Nat) :
    BusState × List Thrown :=
  let stc := { acc.1 with calls := acc.1.calls ++ [(l, msg.payload)] }
  match cfg.listenerBeh l msg.payload with
  | .ret => (stc, acc.2)
  | .asyncOk => (stc, acc.2)
  | .lthrow e => (handleListenerFailure cfg msg e stc, acc.2)
  | .asyncRej e => (stc, acc.2 ++ [e])

/-- Embeds the listener dispatch loop of `createReceive`: each listener
is invoked in registration order with `(payload, context)`; a
synchronous throw runs `handleListenerFailure` immediately; a returned
promise gets a `.catch` continuation, modelled by collecting the
rejections during the loop and running their failure handlers after it
(the loop itself never stops early, so sibling listeners always
run). -/
def dispatchToListeners (cfg : Config) (msg : Msg) (listeners : List Nat)
    (st : BusState) : BusState :=
  let runLoop := listeners.foldl (loopStep cfg msg) (st, [])
  runLoop.2.foldl (fun s e => handleListenerFailure cfg msg e s) runLoop.1

/-- Embeds the command path of `createReceive` (no matching pending
request): allow-list check (silent drop), payload validation (log and
drop), listener lookup (silent drop when none), then dispatch. -/
def commandPath (cfg : Config) (msg : Msg) (st : BusState) : BusState :=
  if ¬ isAllowedType cfg msg.type then st
  else
    match validatePayload cfg msg.type msg.payload with
    | .error _ => safeLogError st "[SimplexBus] Invalid incoming payload"
    | .ok _ =>
      match alookup st.handlers msg.type with
      | none => st
      | some listeners =>
        if listeners.length = 0 then st
        else dispatchToListeners cfg msg listeners st

/-- The context object handed to `isTrustedResponse` on the response
path of `createReceive` (`message.isError === true` for the `isError`
flag). -/
def mkTrustCtx (msg : Msg) (pendingRec : Pending) (i : String) (raw : Raw) : TrustCtx :=
  { requestType := pendingRec.type, requestId := i, responseType := msg.type,
    requestNonce := pendingRec.nonce, responseNonce := msg.nonce,
    payload := msg.payload, isError := msg.isError = .boolV true, raw := raw }

/-- Embeds the response path of `createReceive` (the inbound message's
id matched the pending request `pendingRec` and its type equals the
expected response type): evaluate the trust guard (throw or falsy → log
and drop), the strict nonce check (mismatch → log and drop), then
validate the response payload (failure clears the entry and rejects the
promise with that error) and settle: a truthy `isError` rejects with
`RemoteError(requestType, payload)`, otherwise the promise resolves
with the payload. -/
def responsePath (cfg : Config) (msg : Msg) (pendingRec : Pending) (i : String)
    (raw : Raw) (st : BusState) : BusState :=
  let ctx : TrustCtx := mkTrustCtx msg pendingRec i raw
  match cfg.isTrustedResponse ctx with
  | .error _ => safeLogError st "[SimplexBus] Trusted response guard failed"
  | .ok tv =>
    if ¬ truthy tv then safeLogError st "[SimplexBus] Dropped untrusted response"
    else if isStrictResponseTrust cfg ∧ msg.nonce ≠ some pendingRec.nonce then
      safeLogError st "[SimplexBus] Dropped response with invalid nonce"
    else
      match validatePayload cfg msg.type msg.payload with
      | .error e => settlePromise (clearPending st i) i (.rejectedP e)
      | .ok _ =>
        let st1 := clearPending st i
        if truthy msg.isError then
          settlePromise st1 i (.rejectedP (.remoteE pendingRec.type msg.payload))
        else settlePromise st1 i (.resolvedP msg.payload)

/-- Embeds `receive(raw)` from `createReceive`: silent no-op when
disposed; oversized string input is logged and dropped before parsing;
normalization failure is logged and dropped; then the message is routed
to the response path when its id matches a pending request and its type
is that request's expected response type, and to the command path
otherwise. -/
def receive (cfg : Config) (raw : Raw) (st : BusState) : BusState :=
  if st.disposed then st
  else if (match raw with
      | .rawStr s => decide (getStringSizeInBytes s > cfg.maxIncomingMessageBytes)
      | .rawVal _ => false) then
    safeLogError st "[SimplexBus] Incoming message exceeds maxIncomingMessageBytes"
  else
    match normalizeIncomingMessage cfg.parser raw with
    | .error _ => safeLogError st "[SimplexBus] Invalid incoming message"
    | .ok msg =>
      match msg.id with
      | some i =>
        match alookup st.pending i with
        | some pendingRec =>
          if msg.type = pendingRec.expectedResponseType then
            responsePath cfg msg pendingRec i raw st
          else commandPath cfg msg st
        | none => commandPath cfg msg st
      | none => commandPath cfg msg st

/-- The asynchronous events that can act on a live bus instance. A
timer can fire only while its pending entry exists (clearing the entry
cancels the timer); an abort signal only while the entry exists and an
abort listener was attached (clearing detaches it); `requestEv` is a
`request` call whose generated id and nonce are the last two
arguments. -/
inductive Event : Type where
  | timeoutFire : String → Event
  | abortFire : String → Event
  | receiveEv : Raw → Event
  | disposeEv : Event
  | requestEv : String → Value → ReqArg → String → String → Event
deriving DecidableEq

/-- One step of the bus's event-interleaving semantics (the host's
single-threaded queue serializes these). The timer callback clears the
entry and rejects with `TimeoutError(type, timeout)`; the abort
listener clears and rejects with `AbortedError(type)`; `receive` and
`dispose` act as embedded; a synchronous `request` throw leaves the
state unchanged. -/
def step (cfg : Config) (st : BusState) : Event → BusState
  | .timeoutFire i =>
    match alookup st.pending i with
    | some p => settlePromise (clearPending st i) i (.rejectedP (.timeoutE p.type p.timeoutMs))
    | none => st
  | .abortFire i =>
    match alookup st.pending i with
    | some p =>
      if p.hasSignal then settlePromise (clearPending st i) i (.rejectedP (.abortedE p.type))
      else st
    | none => st
  | .receiveEv raw => receive cfg raw st
  | .disposeEv => dispose st
  | .requestEv type payload arg i nonce =>
    match request cfg st type payload arg i nonce with
    | .threw _ => st
    | .promised st' => st'

/-- Runs a list of events in order. -/
def runTrace (cfg : Config) (st : BusState) (evs : List Event) : BusState :=
  evs.foldl (step cfg) st

/-- The correlation id created by an event, when it is a `request`
call. -/
def Event.requestId : Event → Option String
  | .requestEv _ _ _ i _ => some i
  | _ => none

/-- The correlation ids of all `request` calls in a trace. -/
def requestIds (evs : List Event) : List String :=
  evs.filterMap Event.requestId

/-- Lookup of a promise's settlement state. -/
def promState (st : BusState) (id : String) : Option PState :=
  alookup st.promises id

/-- Lookup of a pending-store entry. -/
def pendState (st : BusState) (id : String) : Option Pending :=
  alookup st.pending id

/-!
Association-list lemmas shared by the behavioural theorems below.
-/

theorem alookup_aset_self {α : Type} (l : List (String × α)) (k : String) (v : α) :
    alookup (aset l k v) k = some v := by
  induction l with
  | nil => simp [aset, alookup]
  | cons kv rest ih =>
    obtain ⟨k0, v0⟩ := kv
    by_cases h : k0 = k
    · simp [aset, alookup, h]
    · simp [aset, alookup, h, ih]

theorem alookup_aset_ne {α : Type} (l : List (String × α)) (k k' : String) (v : α)
    (h : k ≠ k') : alookup (aset l k v) k' = alookup l k' := by
  induction l with
  | nil => simp [aset, alookup, h]
  | cons kv rest ih =>
    obtain ⟨k0, v0⟩ := kv
    by_cases hk : k0 = k
    · subst hk
      simp [aset, alookup, h]
    · by_cases hk' : k0 = k'
      · subst hk'
        simp [aset, alookup, hk, Ne.symm h]
      · simp [aset, alookup, hk, hk', ih]

theorem aerase_eq_filter {α : Type} (l : List (String × α)) (k : String) :
    aerase l k = l.filter (fun kv => kv.1 ≠ k) := by
  induction l with
  | nil => simp [aerase]
  | cons kv rest ih =>
    obtain ⟨k0, v0⟩ := kv
    by_cases h : k0 = k
    · simp [aerase, h, ih]
    · simp [aerase, h, ih]

theorem alookup_aerase_self {α : Type} (l : List (String × α)) (k : String) :
    alookup (aerase l k) k = none := by
  induction l with
  | nil => simp [aerase, alookup]
  | cons kv rest ih =>
    obtain ⟨k0, v0⟩ := kv
    by_cases h : k0 = k
    · simp [aerase, h, ih]
    · simp [aerase, alookup, h, ih]

theorem alookup_aerase_ne {α : Type} (l : List (String × α)) (k k' : String)
    (h : k ≠ k') : alookup (aerase l k) k' = alookup l k' := by
  induction l with
  | nil => simp [aerase, alookup]
  | cons kv rest ih =>
    obtain ⟨k0, v0⟩ := kv
    by_cases hk : k0 = k
    · subst hk
      simp [aerase, alookup, h, ih]
    · by_cases hk' : k0 = k'
      · subst hk'
        simp [aerase, alookup, hk]
      · simp [aerase, alookup, hk, hk', ih]

theorem alookup_updAt_self {α : Type} (l : List (String × α)) (k : String) (v : α) :
    alookup (updAt l k v) k = (alookup l k).map (fun _ => v) := by
  induction l with
  | nil => simp [updAt, alookup]
  | cons kv rest ih =>
    obtain ⟨k0, v0⟩ := kv
    by_cases h : k0 = k
    · subst h
      simp [updAt, alookup]
    · simp [updAt, alookup, h, ih]

theorem alookup_updAt_ne {α : Type} (l : List (String × α)) (k k' : String) (v : α)
    (h : k ≠ k') : alookup (updAt l k v) k' = alookup l k' := by
  induction l with
  | nil => simp [updAt, alookup]
  | cons kv rest ih =>
    obtain ⟨k0, v0⟩ := kv
    by_cases hk : k0 = k
    · subst hk
      simp [updAt, alookup, h, ih]
    · by_cases hk' : k0 = k'
      · subst hk'
        simp [updAt, alookup, hk]
      · simp [updAt, alookup, hk, hk', ih]

theorem alookup_none_keys {α : Type} (l : List (String × α)) (k : String)
    (h : alookup l k = none) : ∀ kv ∈ l, kv.1 ≠ k := by
  induction l with
  | nil => intro kv hkv; simp at hkv
  | cons kv0 rest ih =>
    intro kv hkv
    obtain ⟨k0, v0⟩ := kv0
    by_cases hk : k0 = k
    · simp [alookup, hk] at h
    · simp only [alookup, if_neg hk] at h
      rcases List.mem_cons.mp hkv with h1 | h1
      · rw [h1]; exact hk
      · exact ih h kv h1

theorem alookup_some_mem {α : Type} (l : List (String × α)) (k : String) (v : α)
    (h : alookup l k = some v) : (k, v) ∈ l := by
  induction l with
  | nil => cases h
  | cons kv rest ih =>
    obtain ⟨k0, v0⟩ := kv
    by_cases hk : k0 = k
    · subst hk
      simp only [alookup, if_pos rfl] at h
      cases h
      exact List.mem_cons_self _ _
    · simp only [alookup, if_neg hk] at h
      exact List.mem_cons_of_mem _ (ih h)

/-!
Lemmas about `rejectAll` (the bulk rejection run by `dispose`): it
empties the pending store, rejects exactly the promises whose ids were
pending, and touches no other state field.
-/

theorem rejectAll_promState (e : BusError) (id : String) :
    ∀ (l : List (String × Pending)) (acc : BusState),
    promState (l.foldl (fun acc kv =>
        settlePromise (clearPending acc kv.1) kv.1 (.rejectedP e)) acc) id =
      if ∃ kv ∈ l, kv.1 = id then (promState acc id).map (fun _ => .rejectedP e)
      else promState acc id := by
  intro l
  induction l with
  | nil => intro acc; simp
  | cons kv rest ih =>
    intro acc
    simp only [List.foldl_cons]
    rw [ih]
    by_cases hk : kv.1 = id
    · subst hk
      have h1 : promState (settlePromise (clearPending acc kv.1) kv.1 (.rejectedP e)) kv.1 =
          (promState acc kv.1).map (fun _ => .rejectedP e) := by
        simp only [promState, settlePromise, clearPending]
        exact alookup_updAt_self _ _ _
      by_cases hex : ∃ kv2 ∈ rest, kv2.1 = kv.1
      · rw [if_pos hex, h1]
        have hex2 : ∃ kv2 ∈ kv :: rest, kv2.1 = kv.1 := ⟨kv, List.mem_cons_self _ _, rfl⟩
        rw [if_pos hex2]
        cases promState acc kv.1 <;> simp
      · rw [if_neg hex, h1]
        have hex2 : ∃ kv2 ∈ kv :: rest, kv2.1 = kv.1 := ⟨kv, List.mem_cons_self _ _, rfl⟩
        rw [if_pos hex2]
    · have h1 : promState (settlePromise (clearPending acc kv.1) kv.1 (.rejectedP e)) id =
          promState acc id := by
        simp only [promState, settlePromise, clearPending]
        exact alookup_updAt_ne _ _ _ _ hk
      rw [h1]
      by_cases hex : ∃ kv2 ∈ rest, kv2.1 = id
      · rw [if_pos hex]
        have hex2 : ∃ kv2 ∈ kv :: rest, kv2.1 = id := by
          obtain ⟨kv2, hm, hk2⟩ := hex
          exact ⟨kv2, List.mem_cons_of_mem _ hm, hk2⟩
        rw [if_pos hex2]
      · rw [if_neg hex]
        have hex2 : ¬ ∃ kv2 ∈ kv :: rest, kv2.1 = id := by
          intro ⟨kv2, hm, hk2⟩
          rcases List.mem_cons.mp hm with h1 | h1
          · rw [h1] at hk2; exact hk hk2
          · exact hex ⟨kv2, h1, hk2⟩
        rw [if_neg hex2]

theorem rejectAll_pendState (e : BusError) (id : String) :
    ∀ (l : List (String × Pending)) (acc : BusState),
    pendState (l.foldl (fun acc kv =>
        settlePromise (clearPending acc kv.1) kv.1 (.rejectedP e)) acc) id =
      if ∃ kv ∈ l, kv.1 = id then none else pendState acc id := by
  intro l
  induction l with
  | nil => intro acc; simp
  | cons kv rest ih =>
    intro acc
    simp only [List.foldl_cons]
    rw [ih]
    by_cases hk : kv.1 = id
    · subst hk
      have hex2 : ∃ kv2 ∈ kv :: rest, kv2.1 = kv.1 := ⟨kv, List.mem_cons_self _ _, rfl⟩
      rw [if_pos hex2]
      by_cases hex : ∃ kv2 ∈ rest, kv2.1 = kv.1
      · rw [if_pos hex]
      · rw [if_neg hex]
        simp only [pendState, settlePromise, clearPending]
        exact alookup_aerase_self _ _
    · have h1 : pendState (settlePromise (clearPending acc kv.1) kv.1 (.rejectedP e)) id =
          pendState acc id := by
        simp only [pendState, settlePromise, clearPending]
        exact alookup_aerase_ne _ _ _ hk
      by_cases hex : ∃ kv2 ∈ rest, kv2.1 = id
      · rw [if_pos hex]
        have hex2 : ∃ kv2 ∈ kv :: rest, kv2.1 = id := by
          obtain ⟨kv2, hm, hk2⟩ := hex
          exact ⟨kv2, List.mem_cons_of_mem _ hm, hk2⟩
        rw [if_pos hex2]
      · rw [if_neg hex, h1]
        have hex2 : ¬ ∃ kv2 ∈ kv :: rest, kv2.1 = id := by
          intro ⟨kv2, hm, hk2⟩
          rcases List.mem_cons.mp hm with h1 | h1
          · rw [h1] at hk2; exact hk hk2
          · exact hex ⟨kv2, h1, hk2⟩
        rw [if_neg hex2]

theorem rejectAll_frame (e : BusError) :
    ∀ (l : List (String × Pending)) (acc : BusState),
    (l.foldl (fun acc kv =>
        settlePromise (clearPending acc kv.1) kv.1 (.rejectedP e)) acc).disposed = acc.disposed ∧
    (l.foldl (fun acc kv =>
        settlePromise (clearPending acc kv.1) kv.1 (.rejectedP e)) acc).handlers = acc.handlers ∧
    (l.foldl (fun acc kv =>
        settlePromise (clearPending acc kv.1) kv.1 (.rejectedP e)) acc).log = acc.log ∧
    (l.foldl (fun acc kv =>
        settlePromise (clearPending acc kv.1) kv.1 (.rejectedP e)) acc).sent = acc.sent ∧
    (l.foldl (fun acc kv =>
        settlePromise (clearPending acc kv.1) kv.1 (.rejectedP e)) acc).calls = acc.calls ∧
    (l.foldl (fun acc kv =>
        settlePromise (clearPending acc kv.1) kv.1 (.rejectedP e)) acc).hasUnsub = acc.hasUnsub ∧
    (l.foldl (fun acc kv =>
        settlePromise (clearPending acc kv.1) kv.1 (.rejectedP e)) acc).unsubCalls = acc.unsubCalls := by
  intro l
  induction l with
  | nil => intro acc; simp
  | cons kv rest ih =>
    intro acc
    simp only [List.foldl_cons]
    have := ih (settlePromise (clearPending acc kv.1) kv.1 (.rejectedP e))
    simpa [settlePromise, clearPending] using this

theorem dispose_disposed (st : BusState) : (dispose st).disposed = true := by
  unfold dispose
  by_cases hd : st.disposed
  · rw [if_pos hd]; exact hd
  · rw [if_neg hd]
    have hf := (rejectAll_frame (.disposedE "Bus disposed while awaiting response.")
      st.pending { st with disposed := true }).1
    by_cases hu : (rejectAll { st with disposed := true }
        (.disposedE "Bus disposed while awaiting response.")).hasUnsub
    · simp only [rejectAll] at hu ⊢
      rw [if_pos hu]
      exact hf
    · simp only [rejectAll] at hu ⊢
      rw [if_neg hu]
      exact hf

/-- A disposed bus is left untouched by `dispose`. -/
theorem dispose_of_disposed (st : BusState) (h : st.disposed = true) :
    dispose st = st := by
  unfold dispose
  rw [if_pos h]

/-- Disposing twice equals disposing once: the second call sees the
flag and returns immediately. -/
theorem dispose_idem (st : BusState) : dispose (dispose st) = dispose st :=
  dispose_of_disposed _ (dispose_disposed st)

theorem dispose_promState_of_pending (st : BusState) (id : String)
    (hd : st.disposed = false) (p : Pending) (q : PState)
    (hp : pendState st id = some p) (hq : promState st id = some q) :
    promState (dispose st) id =
      some (.rejectedP (.disposedE "Bus disposed while awaiting response.")) := by
  unfold dispose
  rw [if_neg (by rw [hd]; simp)]
  have hmem : (id, p) ∈ st.pending := alookup_some_mem _ _ _ hp
  have hex : ∃ kv ∈ st.pending, kv.1 = id := ⟨(id, p), hmem, rfl⟩
  have hprom := rejectAll_promState (.disposedE "Bus disposed while awaiting response.") id
    st.pending { st with disposed := true }
  rw [if_pos hex] at hprom
  have hacc : alookup st.promises id = some q := hq
  by_cases hu : (rejectAll { st with disposed := true }
      (.disposedE "Bus disposed while awaiting response.")).hasUnsub
  · simp only [rejectAll] at hu ⊢
    rw [if_pos hu]
    simp only [promState] at hprom ⊢
    rw [hprom, hacc]
    rfl
  · simp only [rejectAll] at hu ⊢
    rw [if_neg hu]
    simp only [promState] at hprom ⊢
    rw [hprom, hacc]
    rfl

theorem dispose_promState_of_nopending (st : BusState) (id : String)
    (hp : pendState st id = none) :
    promState (dispose st) id = promState st id := by
  unfold dispose
  by_cases hd : st.disposed
  · rw [if_pos hd]
  · rw [if_neg hd]
    have hnomem := alookup_none_keys st.pending id hp
    have hex : ¬ ∃ kv ∈ st.pending, kv.1 = id := by
      intro ⟨kv, hm, hk⟩
      exact hnomem kv hm hk
    have hprom := rejectAll_promState (.disposedE "Bus disposed while awaiting response.") id
      st.pending { st with disposed := true }
    rw [if_neg hex] at hprom
    by_cases hu : (rejectAll { st with disposed := true }
        (.disposedE "Bus disposed while awaiting response.")).hasUnsub
    · simp only [rejectAll] at hu ⊢
      rw [if_pos hu]
      exact hprom
    · simp only [rejectAll] at hu ⊢
      rw [if_neg hu]
      exact hprom

theorem dispose_pendState (st : BusState) (id : String) (hd : st.disposed = false) :
    pendState (dispose st) id = none := by
  unfold dispose
  rw [if_neg (by rw [hd]; simp)]
  have hpend := rejectAll_pendState (.disposedE "Bus disposed while awaiting response.") id
    st.pending { st with disposed := true }
  by_cases hex : ∃ kv ∈ st.pending, kv.1 = id
  · rw [if_pos hex] at hpend
    by_cases hu : (rejectAll { st with disposed := true }
        (.disposedE "Bus disposed while awaiting response.")).hasUnsub
    · simp only [rejectAll] at hu ⊢
      rw [if_pos hu]
      exact hpend
    · simp only [rejectAll] at hu ⊢
      rw [if_neg hu]
      exact hpend
  · rw [if_neg hex] at hpend
    have hnone : pendState st id = none := by
      cases hlk : pendState st id with
      | none => rfl
      | some p =>
        exact absurd ⟨(id, p), alookup_some_mem _ _ _ hlk, rfl⟩ hex
    by_cases hu : (rejectAll { st with disposed := true }
        (.disposedE "Bus disposed while awaiting response.")).hasUnsub
    · simp only [rejectAll] at hu ⊢
      rw [if_pos hu]
      exact hpend.trans hnone
    · simp only [rejectAll] at hu ⊢
      rw [if_neg hu]
      exact hpend.trans hnone

/-!
Concrete fixtures used by witness theorems: a bus configuration with
default-like settings (allow-all, no validators, a constant serializer,
permissive trust) and a fresh bus state.
-/

/-- A concrete configuration for witnesses: allow-all, no validators,
constant serializer, always-trusting guard, permissive trust mode,
listeners that return normally. -/
def cfgA : Config :=
  { allowedTypes := []
    validators := fun _ => .vnone
    parser := fun _ => .error (.errObj "no parse")
    serializer := fun _ => .ok "S"
    responseSuffix := "-response"
    maxIncomingMessageBytes := 65536
    maxPendingRequests := 500
    responseTrustMode := .permissive
    isTrustedResponse := fun _ => .ok (.boolV true)
    hasOnReceive := false
    listenerBeh := fun _ _ => .ret }

/-- The state of a freshly constructed bus. -/
def st0 : BusState :=
  { disposed := false, pending := [], promises := [], handlers := [], log := [],
    sent := [], calls := [], hasUnsub := false, unsubCalls := 0 }

theorem dispose_handlers_nil (st : BusState) (hd : st.disposed = false) :
    (dispose st).handlers = [] := by
  unfold dispose
  rw [if_neg (by rw [hd]; simp)]
  by_cases hu : (rejectAll { st with disposed := true }
      (.disposedE "Bus disposed while awaiting response.")).hasUnsub
  · simp only [rejectAll] at hu ⊢
    rw [if_pos hu]
  · simp only [rejectAll] at hu ⊢
    rw [if_neg hu]

theorem dispose_unsub (st : BusState) (hd : st.disposed = false) :
    (dispose st).hasUnsub = false ∧
    (dispose st).unsubCalls = st.unsubCalls + (if st.hasUnsub = true then 1 else 0) := by
  unfold dispose
  rw [if_neg (by rw [hd]; simp)]
  have hf := rejectAll_frame (.disposedE "Bus disposed while awaiting response.")
    st.pending { st with disposed := true }
  by_cases hu : (rejectAll { st with disposed := true }
      (.disposedE "Bus disposed while awaiting response.")).hasUnsub
  · simp only [rejectAll] at hu ⊢
    rw [if_pos hu]
    refine ⟨rfl, ?_⟩
    simp only [rejectAll] at hf
    have hu' : st.hasUnsub = true := (hf.2.2.2.2.2.1.symm.trans hu)
    rw [if_pos hu']
    exact congrArg (· + 1) hf.2.2.2.2.2.2
  · simp only [rejectAll] at hu ⊢
    rw [if_neg hu]
    simp only [rejectAll] at hf
    have hu' : ¬ st.hasUnsub = true := fun h => hu (hf.2.2.2.2.2.1.trans h)
    refine ⟨?_, ?_⟩
    · exact hf.2.2.2.2.2.1.trans (by simpa using hu')
    · rw [if_neg hu']
      simpa using hf.2.2.2.2.2.2

/-!
Claim C10: the handler registry keeps a type key present exactly when
its listener set is non-empty.
-/

/-- The registry invariant: every stored listener set is non-empty, so
a type key is present iff at least one listener is registered for it. -/
def RegInv (st : BusState) : Prop :=
  ∀ t ls, alookup st.handlers t = some ls → ls ≠ []

theorem regInv_handlers_aux (st : BusState) (hInv : RegInv st)
    (type : String) (nls : List Nat) (hne : nls ≠ []) :
    RegInv { st with handlers := aset st.handlers type nls } := by
  intro t ls hl
  simp only at hl
  by_cases heq : type = t
  · subst heq
    rw [alookup_aset_self] at hl
    cases hl
    exact hne
  · rw [alookup_aset_ne _ _ _ _ heq] at hl
    exact hInv t ls hl

theorem regInv_erase_aux (st : BusState) (hInv : RegInv st) (type : String) :
    RegInv { st with handlers := aerase st.handlers type } := by
  intro t ls hl
  simp only at hl
  by_cases heq : type = t
  · subst heq
    rw [alookup_aerase_self] at hl
    cases hl
  · rw [alookup_aerase_ne _ _ _ heq] at hl
    exact hInv t ls hl

theorem regInv_on (cfg : Config) (st : BusState) (hInv : RegInv st)
    (type : String) (h : Nat) (st' : BusState)
    (hok : «on» cfg st type h = .ok st') : RegInv st' := by
  unfold «on» at hok
  split at hok
  · exact Except.noConfusion hok
  · split at hok
    · exact Except.noConfusion hok
    · split at hok
      · exact Except.noConfusion hok
      · injection hok with h1
        subst h1
        apply regInv_handlers_aux st hInv type
        by_cases hmem : h ∈ (alookup st.handlers type).getD []
        · rw [if_pos hmem]
          intro hnil
          rw [hnil] at hmem
          simp at hmem
        · rw [if_neg hmem]
          simp

theorem regInv_off (cfg : Config) (st : BusState) (hInv : RegInv st)
    (type : String) (h : Option Nat) (b : Bool) (st' : BusState)
    (hok : off cfg st type h = .ok (b, st')) : RegInv st' := by
  unfold off at hok
  split at hok
  · exact Except.noConfusion hok
  · split at hok
    · exact Except.noConfusion hok
    · split at hok
      · injection hok with h1
        rw [(Prod.mk.injEq _ _ _ _).mp h1 |>.2.symm]
        exact hInv
      · rename_i listeners hcur
        cases h with
        | none =>
          injection hok with h1
          rw [(Prod.mk.injEq _ _ _ _).mp h1 |>.2.symm]
          exact regInv_erase_aux st hInv type
        | some hh =>
          injection hok with h1
          rw [(Prod.mk.injEq _ _ _ _).mp h1 |>.2.symm]
          by_cases hlen : (listeners.filter (fun x => x ≠ hh)).length = 0
          · rw [if_pos hlen]
            exact regInv_erase_aux st hInv type
          · rw [if_neg hlen]
            apply regInv_handlers_aux st hInv type
            intro hnil
            rw [hnil] at hlen
            simp at hlen

/-- Claim C10: the handler registry maintains the invariant that a type
key is present in the handlers map iff its listener set is non-empty:
`on` (and `once`, which registers through `on`) never stores an empty
set, `off(type, handler)` drops the type entry when the last listener
goes, `off(type)` drops the whole entry, and `off(type)` with no
handler argument returns `true` exactly when at least one listener was
registered for that type. -/
theorem handlerRegistry_key_iff_listeners (cfg : Config) (st : BusState)
    (hInv : RegInv st) :
    (∀ type h st', «on» cfg st type h = .ok st' → RegInv st') ∧
    (∀ type w st', once cfg st type w = .ok st' → RegInv st') ∧
    (∀ type h b st', off cfg st type h = .ok (b, st') → RegInv st') ∧
    (∀ type b st', off cfg st type none = .ok (b, st') →
      (b = true ↔ ∃ ls, alookup st.handlers type = some ls ∧ ls ≠ [])) := by
  refine ⟨fun type h st' hok => regInv_on cfg st hInv type h st' hok,
    fun type w st' hok => regInv_on cfg st hInv type w st' hok,
    fun type h b st' hok => regInv_off cfg st hInv type h b st' hok,
    fun type b st' hok => ?_⟩
  unfold off at hok
  split at hok
  · exact Except.noConfusion hok
  · split at hok
    · exact Except.noConfusion hok
    · split at hok
      · rename_i hcur
        injection hok with h1
        rw [((Prod.mk.injEq _ _ _ _).mp h1).1.symm, hcur]
        simp
      · rename_i listeners hcur
        injection hok with h1
        rw [((Prod.mk.injEq _ _ _ _).mp h1).1.symm, hcur]
        simp only [true_iff]
        exact ⟨listeners, rfl, hInv type listeners hcur⟩

/-- State with one listener registered for `ping`, for the C10
witness. -/
def stPing : BusState := { st0 with handlers := [("ping", [1])] }

theorem handlerRegistry_key_iff_listeners_witness :
    RegInv stPing ∧
    (∀ type b st', off cfgA stPing type none = .ok (b, st') →
      (b = true ↔ ∃ ls, alookup stPing.handlers type = some ls ∧ ls ≠ [])) := by
  have hInv : RegInv stPing := by
    intro t ls hl
    simp only [stPing, st0, alookup] at hl
    by_cases h : "ping" = t
    · rw [if_pos h] at hl
      rcases hl
      simp
    · rw [if_neg h] at hl
      cases hl
  exact ⟨hInv, (handlerRegistry_key_iff_listeners cfgA stPing hInv).2.2.2⟩

/-!
Claim C6: disposal is an idempotent one-way transition that rejects
all pending requests and shuts every operation down.
-/

/-- Claim C6: `dispose()` is idempotent (the second call is a no-op and
the `onReceive` unsubscribe function runs at most once); the first call
rejects every pending request with `DisposedError`, clears all
handlers, and consumes the unsubscribe function; after disposal `send`,
`request`, `on`, `once` and `off` raise `DisposedError` (for otherwise
valid arguments) and `receive` is a silent no-op. -/
theorem dispose_lifecycle (cfg : Config) (st : BusState) :
    (dispose (dispose st) = dispose st) ∧
    ((dispose st).unsubCalls ≤ st.unsubCalls + 1) ∧
    (st.disposed = false → (dispose st).hasUnsub = false ∧
      (dispose st).unsubCalls = st.unsubCalls + (if st.hasUnsub = true then 1 else 0)) ∧
    (st.disposed = false → ∀ id p q, pendState st id = some p → promState st id = some q →
      promState (dispose st) id =
        some (.rejectedP (.disposedE "Bus disposed while awaiting response."))) ∧
    (st.disposed = false → (dispose st).handlers = [] ∧
      ∀ id, pendState (dispose st) id = none) ∧
    (st.disposed = true → ∀ type payload, type.length > 0 →
      send cfg st type payload = .error (.disposedE "Bus is disposed.")) ∧
    (st.disposed = true → ∀ type payload arg id nonce,
      request cfg st type payload arg id nonce = .threw (.disposedE "Bus is disposed.")) ∧
    (st.disposed = true → ∀ type h,
      «on» cfg st type h = .error (.disposedE "Bus is disposed.")) ∧
    (st.disposed = true → ∀ type w,
      once cfg st type w = .error (.disposedE "Bus is disposed.")) ∧
    (st.disposed = true → ∀ type h,
      off cfg st type h = .error (.disposedE "Bus is disposed.")) ∧
    (st.disposed = true → ∀ raw, receive cfg raw st = st) := by
  refine ⟨dispose_idem st, ?_, fun hd => dispose_unsub st hd,
    fun hd id p q hp hq => dispose_promState_of_pending st id hd p q hp hq,
    fun hd => ⟨dispose_handlers_nil st hd, fun id => dispose_pendState st id hd⟩,
    ?_, ?_, ?_, ?_, ?_, ?_⟩
  · by_cases hd : st.disposed
    · rw [dispose_of_disposed st hd]
      exact Nat.le_succ_of_le (Nat.le_refl _)
    · have hd' : st.disposed = false := by simpa using hd
      rw [(dispose_unsub st hd').2]
      by_cases hu : st.hasUnsub = true
      · rw [if_pos hu]
      · rw [if_neg hu]
        exact Nat.le_succ_of_le (Nat.le_refl _)
  · intro hd type payload ht
    unfold send sendEnvelope
    rw [if_neg (by omega), if_pos hd]
  · intro hd type payload arg id nonce
    unfold request
    rw [if_pos hd]
  · intro hd type h
    unfold «on»
    rw [if_pos hd]
  · intro hd type w
    unfold once «on»
    rw [if_pos hd]
  · intro hd type h
    unfold off
    rw [if_pos hd]
  · intro hd raw
    unfold receive
    rw [if_pos hd]

/-- A pending entry for a `get` request, used by witnesses. -/
def pendR1 : Pending :=
  { type := "get", expectedResponseType := "get-response", nonce := "n1",
    hasSignal := false, timeoutMs := 5000 }

/-- A live bus with one pending request, one listener and an
unsubscribe function, used by witnesses. -/
def stDW : BusState :=
  { st0 with
    pending := [("r1", pendR1)]
    promises := [("r1", .unsettled)]
    handlers := [("ping", [1])]
    hasUnsub := true }

theorem dispose_lifecycle_witness :
    stDW.disposed = false ∧
    pendState stDW "r1" = some pendR1 ∧
    promState stDW "r1" = some .unsettled ∧
    (dispose stDW).disposed = true ∧
    promState (dispose stDW) "r1" =
      some (.rejectedP (.disposedE "Bus disposed while awaiting response.")) ∧
    send cfgA (dispose stDW) "get" .undefV = .error (.disposedE "Bus is disposed.") ∧
    receive cfgA (.rawVal .emptyObj) (dispose stDW) = dispose stDW :=
  ⟨rfl, by decide, by decide, dispose_disposed stDW,
    (dispose_lifecycle cfgA stDW).2.2.2.1 rfl "r1" pendR1 .unsettled (by decide) (by decide),
    (dispose_lifecycle cfgA (dispose stDW)).2.2.2.2.2.1 (dispose_disposed stDW)
      "get" .undefV (by decide),
    (dispose_lifecycle cfgA (dispose stDW)).2.2.2.2.2.2.2.2.2.2 (dispose_disposed stDW)
      (.rawVal .emptyObj)⟩

/-!
Claim C7: a full pending store makes `request` fail synchronously with
`LimitError`, leaving all state untouched; disposing afterwards still
rejects the existing pending requests.
-/

/-- Claim C7: when the pending count has reached `maxPendingRequests`
and `request` is called with valid arguments on a non-disposed bus, the
call throws `LimitError` synchronously; no envelope is sent, no entry
is added and the existing pending requests are unchanged (the state is
untouched); disposing afterwards rejects them all with
`DisposedError`. -/
theorem request_limitError (cfg : Config) (st : BusState) (type : String)
    (payload : Value) (arg : ReqArg) (id nonce : String) (tmo : Int)
    (sig : Option SignalV)
    (hd : st.disposed = false) (ht : type.length > 0)
    (hopt : parseRequestOptions arg = .ok (.fin tmo, sig))
    (htmo : 0 ≤ tmo)
    (hsig : ∀ sv, sig = some sv → sv.isSignal = true)
    (hlim : st.pending.length ≥ cfg.maxPendingRequests) :
    request cfg st type payload arg id nonce = .threw .limitE ∧
    step cfg st (.requestEv type payload arg id nonce) = st ∧
    (∀ i p q, pendState st i = some p → promState st i = some q →
      promState (dispose st) i =
        some (.rejectedP (.disposedE "Bus disposed while awaiting response."))) := by
  have hreq : request cfg st type payload arg id nonce = .threw .limitE := by
    unfold request
    rw [if_neg (by rw [hd]; simp), if_neg (by omega), hopt]
    simp only
    rw [if_neg (by omega)]
    cases sig with
    | none =>
      simp only [Bool.false_eq_true, if_false]
      rw [if_pos hlim]
    | some sv =>
      have hsv : sv.isSignal = true := hsig sv rfl
      simp only [hsv, Bool.not_true, Bool.false_eq_true, if_false]
      rw [if_pos hlim]
  refine ⟨hreq, ?_, fun i p q hp hq => dispose_promState_of_pending st i hd p q hp hq⟩
  simp only [step]
  rw [hreq]

/-- A configuration whose pending store holds at most one request. -/
def cfgL : Config := { cfgA with maxPendingRequests := 1 }

theorem request_limitError_witness :
    stDW.disposed = false ∧ ("get2".length > 0) ∧
    parseRequestOptions .noArg = .ok (.fin 5000, none) ∧
    stDW.pending.length ≥ cfgL.maxPendingRequests ∧
    request cfgL stDW "get2" .undefV .noArg "r2" "n2" = .threw .limitE ∧
    step cfgL stDW (.requestEv "get2" .undefV .noArg "r2" "n2") = stDW := by
  have h := request_limitError cfgL stDW "get2" .undefV .noArg "r2" "n2" 5000 none
    rfl (by decide) rfl (by decide) (fun sv hsv => by cases hsv) (by decide)
  exact ⟨rfl, by decide, rfl, by decide, h.1, h.2.1⟩

/-!
Frame lemmas: the dispatch helpers touch only the effect-history
fields (`log`, `sent`, `calls`), never the stores or the lifecycle
flags. `SameCore` names the untouched part.
-/

/-- The store and lifecycle fields two states share when only effect
history (log, sent, calls) differs. -/
def SameCore (st st' : BusState) : Prop :=
  st'.disposed = st.disposed ∧ st'.pending = st.pending ∧ st'.promises = st.promises ∧
  st'.handlers = st.handlers ∧ st'.hasUnsub = st.hasUnsub ∧ st'.unsubCalls = st.unsubCalls

theorem sameCore_refl (st : BusState) : SameCore st st :=
  ⟨rfl, rfl, rfl, rfl, rfl, rfl⟩

theorem sameCore_trans {a b c : BusState} (h1 : SameCore a b) (h2 : SameCore b c) :
    SameCore a c :=
  ⟨h2.1.trans h1.1, h2.2.1.trans h1.2.1, h2.2.2.1.trans h1.2.2.1,
    h2.2.2.2.1.trans h1.2.2.2.1, h2.2.2.2.2.1.trans h1.2.2.2.2.1,
    h2.2.2.2.2.2.trans h1.2.2.2.2.2⟩

theorem safeLogError_core (st : BusState) (e : String) :
    SameCore st (safeLogError st e) :=
  ⟨rfl, rfl, rfl, rfl, rfl, rfl⟩

theorem sendEnvelope_ok_core (cfg : Config) (st : BusState) (mtype : String)
    (message : Value) (g : Bool) (st' : BusState)
    (h : sendEnvelope cfg st mtype message g = .ok st') : SameCore st st' := by
  unfold sendEnvelope at h
  split at h
  · exact Except.noConfusion h
  · split at h
    · exact Except.noConfusion h
    · split at h
      · exact Except.noConfusion h
      · split at h
        · exact Except.noConfusion h
        · injection h with h1
          subst h1
          exact ⟨rfl, rfl, rfl, rfl, rfl, rfl⟩

theorem sendResponse_ok_core (cfg : Config) (st : BusState) (msg : Msg)
    (payload : Value) (isErr : Bool) (b : Bool) (st' : BusState)
    (h : sendResponse cfg st msg payload isErr = .ok (b, st')) : SameCore st st' := by
  unfold sendResponse at h
  split at h
  · injection h with h1
    rw [((Prod.mk.injEq _ _ _ _).mp h1).2.symm]
    exact sameCore_refl st
  · split at h
    all_goals
      dsimp only at h
      split at h
      case _ =>
        rename_i st2 hse
        injection h with h1
        rw [((Prod.mk.injEq _ _ _ _).mp h1).2.symm]
        exact sendEnvelope_ok_core _ _ _ _ _ _ hse
      case _ => exact Except.noConfusion h

theorem handleListenerFailure_core (cfg : Config) (msg : Msg) (e : Thrown)
    (st : BusState) : SameCore st (handleListenerFailure cfg msg e st) := by
  unfold handleListenerFailure
  split
  · exact safeLogError_core st _
  · dsimp only
    split
    · rename_i b st2 hsr
      exact sameCore_trans (safeLogError_core st _) (sendResponse_ok_core _ _ _ _ _ _ _ hsr)
    · exact sameCore_trans (safeLogError_core st _) (safeLogError_core _ _)

theorem dispatch_core_aux (cfg : Config) (msg : Msg) :
    ∀ (pending : List Thrown) (st : BusState),
    SameCore st (pending.foldl (fun s e => handleListenerFailure cfg msg e s) st) := by
  intro pending
  induction pending with
  | nil => intro st; exact sameCore_refl st
  | cons e rest ih =>
    intro st
    simp only [List.foldl_cons]
    exact sameCore_trans (handleListenerFailure_core cfg msg e st) (ih _)

theorem loopStep_core (cfg : Config) (msg : Msg) (acc : BusState × List Thrown)
    (l : Nat) : SameCore acc.1 (loopStep cfg msg acc l).1 := by
  unfold loopStep
  cases hb : cfg.listenerBeh l msg.payload with
  | ret => exact ⟨rfl, rfl, rfl, rfl, rfl, rfl⟩
  | asyncOk => exact ⟨rfl, rfl, rfl, rfl, rfl, rfl⟩
  | lthrow e =>
    simp only
    exact sameCore_trans (⟨rfl, rfl, rfl, rfl, rfl, rfl⟩ :
      SameCore acc.1 { acc.1 with calls := acc.1.calls ++ [(l, msg.payload)] })
      (handleListenerFailure_core cfg msg e _)
  | asyncRej e => exact ⟨rfl, rfl, rfl, rfl, rfl, rfl⟩

theorem dispatch_loop_core (cfg : Config) (msg : Msg) :
    ∀ (ls : List Nat) (acc : BusState × List Thrown),
    SameCore acc.1 (ls.foldl (loopStep cfg msg) acc).1 := by
  intro ls
  induction ls with
  | nil => intro acc; exact sameCore_refl acc.1
  | cons l rest ih =>
    intro acc
    simp only [List.foldl_cons]
    exact sameCore_trans (loopStep_core cfg msg acc l) (ih _)

theorem dispatchToListeners_core (cfg : Config) (msg : Msg) (ls : List Nat)
    (st : BusState) : SameCore st (dispatchToListeners cfg msg ls st) := by
  unfold dispatchToListeners
  exact sameCore_trans (dispatch_loop_core cfg msg ls (st, [])) (dispatch_core_aux cfg msg _ _)

theorem commandPath_core (cfg : Config) (msg : Msg) (st : BusState) :
    SameCore st (commandPath cfg msg st) := by
  unfold commandPath
  split
  · exact sameCore_refl st
  · split
    · exact safeLogError_core st _
    · split
      · exact sameCore_refl st
      · split
        · exact sameCore_refl st
        · exact dispatchToListeners_core cfg msg _ st

/-!
Routing lemmas for `receive`: under the stated conditions it reduces
to the response path or the command path.
-/

theorem receive_eq_responsePath (cfg : Config) (st : BusState) (raw : Raw) (msg : Msg)
    (i : String) (p : Pending)
    (hd : st.disposed = false)
    (hsize : (match raw with
      | .rawStr s => decide (getStringSizeInBytes s > cfg.maxIncomingMessageBytes)
      | .rawVal _ => false) = false)
    (hn : normalizeIncomingMessage cfg.parser raw = .ok msg)
    (hid : msg.id = some i)
    (hp : alookup st.pending i = some p)
    (hty : msg.type = p.expectedResponseType) :
    receive cfg raw st = responsePath cfg msg p i raw st := by
  unfold receive
  rw [if_neg (by rw [hd]; simp), hsize]
  simp only [Bool.false_eq_true, if_false, hn]
  rw [hid]
  simp only
  rw [hp]
  simp only
  rw [if_pos hty]

theorem receive_eq_commandPath_mismatch (cfg : Config) (st : BusState) (raw : Raw)
    (msg : Msg) (i : String) (p : Pending)
    (hd : st.disposed = false)
    (hsize : (match raw with
      | .rawStr s => decide (getStringSizeInBytes s > cfg.maxIncomingMessageBytes)
      | .rawVal _ => false) = false)
    (hn : normalizeIncomingMessage cfg.parser raw = .ok msg)
    (hid : msg.id = some i)
    (hp : alookup st.pending i = some p)
    (hty : msg.type ≠ p.expectedResponseType) :
    receive cfg raw st = commandPath cfg msg st := by
  unfold receive
  rw [if_neg (by rw [hd]; simp), hsize]
  simp only [Bool.false_eq_true, if_false, hn]
  rw [hid]
  simp only
  rw [hp]
  simp only
  rw [if_neg hty]

theorem receive_eq_commandPath_nopending (cfg : Config) (st : BusState) (raw : Raw)
    (msg : Msg)
    (hd : st.disposed = false)
    (hsize : (match raw with
      | .rawStr s => decide (getStringSizeInBytes s > cfg.maxIncomingMessageBytes)
      | .rawVal _ => false) = false)
    (hn : normalizeIncomingMessage cfg.parser raw = .ok msg)
    (hroute : (match msg.id with
      | some i => alookup st.pending i = none
      | none => True)) :
    receive cfg raw st = commandPath cfg msg st := by
  unfold receive
  rw [if_neg (by rw [hd]; simp), hsize]
  simp only [Bool.false_eq_true, if_false, hn]
  cases hid : msg.id with
  | none => simp only
  | some i =>
    rw [hid] at hroute
    simp only
    rw [hroute]

/-!
Claim C9: an inbound message whose id matches a pending request but
whose type is not that request's expected response type takes the
command path, leaving the pending request untouched.
-/

/-- Claim C9: when an inbound message's id matches a pending request
but its type differs from that request's `expectedResponseType`, the
message is not treated as a response: the pending store and the
promises are untouched, and the message goes through the command path
(allow-list check, payload validation, listener dispatch) exactly as if
no pending request had matched. -/
theorem receive_id_match_type_mismatch (cfg : Config) (st : BusState) (raw : Raw)
    (msg : Msg) (i : String) (p : Pending)
    (hd : st.disposed = false)
    (hsize : (match raw with
      | .rawStr s => decide (getStringSizeInBytes s > cfg.maxIncomingMessageBytes)
      | .rawVal _ => false) = false)
    (hn : normalizeIncomingMessage cfg.parser raw = .ok msg)
    (hid : msg.id = some i)
    (hp : pendState st i = some p)
    (hty : msg.type ≠ p.expectedResponseType) :
    receive cfg raw st = commandPath cfg msg st ∧
    (receive cfg raw st).pending = st.pending ∧
    (receive cfg raw st).promises = st.promises := by
  have heq := receive_eq_commandPath_mismatch cfg st raw msg i p hd hsize hn hid hp hty
  have hcore := commandPath_core cfg msg st
  exact ⟨heq, heq ▸ hcore.2.1, heq ▸ hcore.2.2.1⟩

/-- A message of an unrelated type reusing the pending id `r1`. -/
def pingWithR1 : Value :=
  mkObj [("type", .strV "ping"), ("id", .strV "r1"), ("payload", .strV "pl")]

/-- The normalized form of `pingWithR1`. -/
def msgPingR1 : Msg :=
  { type := "ping", id := some "r1", nonce := none,
    payload := .strV "pl", isError := .undefV }

theorem receive_id_match_type_mismatch_witness :
    stDW.disposed = false ∧
    normalizeIncomingMessage cfgA.parser (.rawVal pingWithR1) = .ok msgPingR1 ∧
    pendState stDW "r1" = some pendR1 ∧
    receive cfgA (.rawVal pingWithR1) stDW = commandPath cfgA msgPingR1 stDW ∧
    (receive cfgA (.rawVal pingWithR1) stDW).pending = stDW.pending := by
  have h := receive_id_match_type_mismatch cfgA stDW (.rawVal pingWithR1)
    msgPingR1 "r1" pendR1 rfl rfl (by decide) rfl (by decide) (by decide)
  exact ⟨rfl, by decide, by decide, h.1, h.2.1⟩

/-- A timer firing while its pending entry exists settles the promise
with `TimeoutError(type, timeout)`. -/
theorem timeoutFire_settles (cfg : Config) (st : BusState) (i : String)
    (p : Pending) (q : PState)
    (hp : pendState st i = some p) (hq : promState st i = some q) :
    promState (step cfg st (.timeoutFire i)) i =
      some (.rejectedP (.timeoutE p.type p.timeoutMs)) := by
  simp only [step]
  rw [show alookup st.pending i = some p from hp]
  simp only [promState, settlePromise, clearPending]
  rw [alookup_updAt_self, show alookup st.promises i = some q from hq]
  rfl

/-!
Claim C2: an untrusted or nonce-invalid response is dropped and
logged; the pending request stays pending and can still time out.
-/

/-- Claim C2: when an inbound message matches a pending request (same
id, expected response type) but the `isTrustedResponse` guard throws or
returns falsy, or strict trust is in effect (`responseTrustMode`
'strict', or 'auto' with an `onReceive` function configured) and the
message nonce differs from the request's nonce, `receive` logs and
drops the message: the pending entry survives, the promise state is
unchanged (not rejected), and the eventual timeout still settles the
request with `TimeoutError` — a forged response reusing the id with a
missing or wrong nonce never resolves the request. -/
theorem receive_untrusted_response_drop (cfg : Config) (st : BusState) (raw : Raw)
    (msg : Msg) (i : String) (p : Pending) (q : PState)
    (hd : st.disposed = false)
    (hsize : (match raw with
      | .rawStr s => decide (getStringSizeInBytes s > cfg.maxIncomingMessageBytes)
      | .rawVal _ => false) = false)
    (hn : normalizeIncomingMessage cfg.parser raw = .ok msg)
    (hid : msg.id = some i)
    (hp : pendState st i = some p)
    (hty : msg.type = p.expectedResponseType)
    (hq : promState st i = some q)
    (hdrop :
      (∃ e, cfg.isTrustedResponse (mkTrustCtx msg p i raw) = .error e) ∨
      (∃ v, cfg.isTrustedResponse (mkTrustCtx msg p i raw) = .ok v ∧ truthy v = false) ∨
      (isStrictResponseTrust cfg = true ∧ msg.nonce ≠ some p.nonce ∧
        ∃ v, cfg.isTrustedResponse (mkTrustCtx msg p i raw) = .ok v ∧ truthy v = true)) :
    (∃ entry, receive cfg raw st = safeLogError st entry) ∧
    pendState (receive cfg raw st) i = some p ∧
    promState (receive cfg raw st) i = some q ∧
    promState (step cfg (receive cfg raw st) (.timeoutFire i)) i =
      some (.rejectedP (.timeoutE p.type p.timeoutMs)) := by
  have heq := receive_eq_responsePath cfg st raw msg i p hd hsize hn hid hp hty
  unfold responsePath at heq
  dsimp only at heq
  have hlog : ∃ entry, receive cfg raw st = safeLogError st entry := by
    rcases hdrop with ⟨e, hg⟩ | ⟨v, hg, htv⟩ | ⟨hs, hnn, v, hg, htv⟩
    · rw [hg] at heq
      exact ⟨_, heq⟩
    · rw [hg] at heq
      simp only at heq
      rw [if_pos (by rw [htv]; simp)] at heq
      exact ⟨_, heq⟩
    · rw [hg] at heq
      simp only at heq
      rw [if_neg (by rw [htv]; simp), if_pos ⟨hs, hnn⟩] at heq
      exact ⟨_, heq⟩
  obtain ⟨entry, hrec⟩ := hlog
  have hpend : pendState (receive cfg raw st) i = some p := by rw [hrec]; exact hp
  have hprom : promState (receive cfg raw st) i = some q := by rw [hrec]; exact hq
  exact ⟨⟨entry, hrec⟩, hpend, hprom,
    timeoutFire_settles cfg (receive cfg raw st) i p q hpend hprom⟩

/-- A strict-trust configuration. -/
def cfgS : Config := { cfgA with responseTrustMode := .strict }

/-- A forged response envelope: it reuses the captured request id `r1`
and the expected response type but carries no nonce. -/
def forgedResp : Value :=
  mkObj [("type", .strV "get-response"), ("id", .strV "r1"), ("payload", .strV "evil")]

/-- The normalized form of `forgedResp`. -/
def msgForged : Msg :=
  { type := "get-response", id := some "r1", nonce := none,
    payload := .strV "evil", isError := .undefV }

theorem receive_untrusted_response_drop_witness :
    stDW.disposed = false ∧
    normalizeIncomingMessage cfgS.parser (.rawVal forgedResp) = .ok msgForged ∧
    pendState stDW "r1" = some pendR1 ∧
    promState stDW "r1" = some .unsettled ∧
    isStrictResponseTrust cfgS = true ∧
    msgForged.nonce ≠ some pendR1.nonce ∧
    pendState (receive cfgS (.rawVal forgedResp) stDW) "r1" = some pendR1 ∧
    promState (receive cfgS (.rawVal forgedResp) stDW) "r1" = some .unsettled ∧
    promState (step cfgS (receive cfgS (.rawVal forgedResp) stDW) (.timeoutFire "r1")) "r1" =
      some (.rejectedP (.timeoutE "get" 5000)) := by
  have h := receive_untrusted_response_drop cfgS stDW (.rawVal forgedResp) msgForged
    "r1" pendR1 .unsettled rfl rfl (by decide) rfl (by decide) (by decide) (by decide)
    (Or.inr (Or.inr ⟨by decide, by decide, .boolV true, rfl, rfl⟩))
  exact ⟨rfl, by decide, by decide, by decide, by decide, by decide, h.2.1, h.2.2.1, h.2.2.2⟩

/-!
Claim C3: settlement of a trusted, nonce-valid response. The claim as
frozen says the promise is rejected with `RemoteError` "when the
message has isError true, and resolved with the message payload
otherwise"; the code branches on JS truthiness of `message.isError`
(`if (message.isError)`), so a message with `isError: 1` — which is not
`true` — is rejected with `RemoteError`, not resolved. The theorem
below proves the amended (truthiness) form; the counterexample theorem
exhibits the divergence.
-/

/-- Claim C3 (amended): when `receive` processes a trusted, nonce-valid
message matching a pending request, a failing payload validator clears
the pending entry and rejects the promise with that validation error;
otherwise the entry is cleared and the promise is rejected with
`RemoteError(requestType, payload)` when the message's `isError` field
is truthy, and resolved with the message payload when it is falsy. -/
theorem receive_trusted_response_settles (cfg : Config) (st : BusState) (raw : Raw)
    (msg : Msg) (i : String) (p : Pending) (q : PState) (v : Value)
    (hd : st.disposed = false)
    (hsize : (match raw with
      | .rawStr s => decide (getStringSizeInBytes s > cfg.maxIncomingMessageBytes)
      | .rawVal _ => false) = false)
    (hn : normalizeIncomingMessage cfg.parser raw = .ok msg)
    (hid : msg.id = some i)
    (hp : pendState st i = some p)
    (hty : msg.type = p.expectedResponseType)
    (hq : promState st i = some q)
    (hg : cfg.isTrustedResponse (mkTrustCtx msg p i raw) = .ok v)
    (htv : truthy v = true)
    (hnonce : ¬ (isStrictResponseTrust cfg = true ∧ msg.nonce ≠ some p.nonce)) :
    (∀ e, validatePayload cfg msg.type msg.payload = .error e →
      pendState (receive cfg raw st) i = none ∧
      promState (receive cfg raw st) i = some (.rejectedP e)) ∧
    (validatePayload cfg msg.type msg.payload = .ok () →
      pendState (receive cfg raw st) i = none ∧
      (truthy msg.isError = true →
        promState (receive cfg raw st) i =
          some (.rejectedP (.remoteE p.type msg.payload))) ∧
      (truthy msg.isError = false →
        promState (receive cfg raw st) i = some (.resolvedP msg.payload))) := by
  have heq := receive_eq_responsePath cfg st raw msg i p hd hsize hn hid hp hty
  unfold responsePath at heq
  dsimp only at heq
  rw [hg] at heq
  simp only at heq
  rw [if_neg (by rw [htv]; simp), if_neg hnonce] at heq
  constructor
  · intro e hv
    rw [hv] at heq
    simp only at heq
    rw [heq]
    refine ⟨alookup_aerase_self _ _, ?_⟩
    simp only [promState, settlePromise, clearPending]
    rw [alookup_updAt_self, show alookup st.promises i = some q from hq]
    rfl
  · intro hv
    rw [hv] at heq
    simp only at heq
    by_cases hie : truthy msg.isError
    · rw [if_pos hie] at heq
      rw [heq]
      refine ⟨alookup_aerase_self _ _, fun _ => ?_, fun hcontra => by rw [hie] at hcontra; cases hcontra⟩
      simp only [promState, settlePromise, clearPending]
      rw [alookup_updAt_self, show alookup st.promises i = some q from hq]
      rfl
    · rw [if_neg hie] at heq
      rw [heq]
      refine ⟨alookup_aerase_self _ _, fun hcontra => absurd hcontra hie, fun _ => ?_⟩
      simp only [promState, settlePromise, clearPending]
      rw [alookup_updAt_self, show alookup st.promises i = some q from hq]
      rfl

/-- A response for `r1` with a truthy but non-`true` `isError` field
(`isError: 1`). -/
def errNumResp : Value :=
  mkObj [("type", .strV "get-response"), ("id", .strV "r1"), ("nonce", .strV "n1"),
    ("payload", .strV "x"), ("isError", .numV 1)]

/-- The normalized form of `errNumResp`. -/
def msgErrNum : Msg :=
  { type := "get-response", id := some "r1", nonce := some "n1",
    payload := .strV "x", isError := .numV 1 }

/-- Counterexample to claim C3 as frozen: this trusted, nonce-valid
response's `isError` is `1`, which is not `true`, so the claim says the
request resolves with the payload; the code tests truthiness and
rejects the promise with `RemoteError` instead. -/
theorem receive_response_isError_counterexample :
    msgErrNum.isError ≠ .boolV true ∧
    normalizeIncomingMessage cfgA.parser (.rawVal errNumResp) = .ok msgErrNum ∧
    pendState stDW "r1" = some pendR1 ∧
    validatePayload cfgA "get-response" (.strV "x") = .ok () ∧
    promState (receive cfgA (.rawVal errNumResp) stDW) "r1" =
      some (.rejectedP (.remoteE "get" (.strV "x"))) ∧
    promState (receive cfgA (.rawVal errNumResp) stDW) "r1" ≠
      some (.resolvedP (.strV "x")) := by
  refine ⟨by decide, by decide, by decide, by decide, by decide, by decide⟩

/-- A well-formed successful response for `r1`. -/
def okResp : Value :=
  mkObj [("type", .strV "get-response"), ("id", .strV "r1"), ("nonce", .strV "n1"),
    ("payload", .strV "x")]

/-- The normalized form of `okResp`. -/
def msgOkResp : Msg :=
  { type := "get-response", id := some "r1", nonce := some "n1",
    payload := .strV "x", isError := .undefV }

theorem receive_trusted_response_settles_witness :
    stDW.disposed = false ∧
    normalizeIncomingMessage cfgA.parser (.rawVal okResp) = .ok msgOkResp ∧
    pendState stDW "r1" = some pendR1 ∧
    validatePayload cfgA "get-response" (.strV "x") = .ok () ∧
    pendState (receive cfgA (.rawVal okResp) stDW) "r1" = none ∧
    promState (receive cfgA (.rawVal okResp) stDW) "r1" = some (.resolvedP (.strV "x")) := by
  have h := receive_trusted_response_settles cfgA stDW (.rawVal okResp) msgOkResp
    "r1" pendR1 .unsettled (.boolV true) rfl rfl (by decide) rfl (by decide) (by decide)
    (by decide) rfl rfl (by decide)
  have h2 := h.2 (by decide)
  exact ⟨rfl, by decide, by decide, by decide, h2.1, h2.2.2 rfl⟩

/-!
Claim C5: `receive` never throws to its caller. In the embedding
`receive` is a total function into `BusState` — every fallible
collaborator call (parser, validator, trust guard, listener) is
consumed by the same try/catch structure as the source, so no thrown
value escapes. The frozen claim additionally says every such failure
"is reported via the injected logger and the message is dropped"; that
is false for a throwing payload validator on a message that matched a
pending request as a trusted response: there the code clears the entry
and rejects the promise with the validation error, logging nothing.
The theorem below proves the amended per-class behaviour.
-/

/-- Claim C5 (amended): `receive` returns normally on every raw input;
oversized strings, inputs failing normalization (non-object,
missing/empty type, invalid id or nonce, throwing parser), a throwing
trust guard, and a command-path validator failure are each logged and
dropped; a validator failure on a trusted matched response instead
rejects that pending request with the validation error, without
logging; and listener dispatch (including throwing listeners) can only
append to the effect history, never corrupt stores or throw out. -/
theorem receive_never_throws (cfg : Config) (st : BusState)
    (hd : st.disposed = false) :
    (∀ s, getStringSizeInBytes s > cfg.maxIncomingMessageBytes →
      receive cfg (.rawStr s) st =
        safeLogError st "[SimplexBus] Incoming message exceeds maxIncomingMessageBytes") ∧
    (∀ raw e, (match raw with
        | .rawStr s => decide (getStringSizeInBytes s > cfg.maxIncomingMessageBytes)
        | .rawVal _ => false) = false →
      normalizeIncomingMessage cfg.parser raw = .error e →
      receive cfg raw st = safeLogError st "[SimplexBus] Invalid incoming message") ∧
    (∀ raw msg i p e, (match raw with
        | .rawStr s => decide (getStringSizeInBytes s > cfg.maxIncomingMessageBytes)
        | .rawVal _ => false) = false →
      normalizeIncomingMessage cfg.parser raw = .ok msg →
      msg.id = some i → pendState st i = some p →
      msg.type = p.expectedResponseType →
      cfg.isTrustedResponse (mkTrustCtx msg p i raw) = .error e →
      receive cfg raw st = safeLogError st "[SimplexBus] Trusted response guard failed") ∧
    (∀ msg e, isAllowedType cfg msg.type = true →
      validatePayload cfg msg.type msg.payload = .error e →
      commandPath cfg msg st = safeLogError st "[SimplexBus] Invalid incoming payload") ∧
    (∀ raw msg i p q v e, (match raw with
        | .rawStr s => decide (getStringSizeInBytes s > cfg.maxIncomingMessageBytes)
        | .rawVal _ => false) = false →
      normalizeIncomingMessage cfg.parser raw = .ok msg →
      msg.id = some i → pendState st i = some p →
      msg.type = p.expectedResponseType →
      promState st i = some q →
      cfg.isTrustedResponse (mkTrustCtx msg p i raw) = .ok v → truthy v = true →
      ¬ (isStrictResponseTrust cfg = true ∧ msg.nonce ≠ some p.nonce) →
      validatePayload cfg msg.type msg.payload = .error e →
      (receive cfg raw st).log = st.log ∧
      pendState (receive cfg raw st) i = none ∧
      promState (receive cfg raw st) i = some (.rejectedP e)) ∧
    (∀ msg, SameCore st (commandPath cfg msg st)) := by
  refine ⟨?_, ?_, ?_, ?_, ?_, fun msg => commandPath_core cfg msg st⟩
  · intro s hsz
    unfold receive
    rw [if_neg (by rw [hd]; simp), if_pos (by simpa using hsz)]
  · intro raw e hsize hn
    unfold receive
    rw [if_neg (by rw [hd]; simp), hsize]
    simp only [Bool.false_eq_true, if_false, hn]
  · intro raw msg i p e hsize hn hid hp hty hg
    have heq := receive_eq_responsePath cfg st raw msg i p hd hsize hn hid hp hty
    unfold responsePath at heq
    dsimp only at heq
    rw [hg] at heq
    exact heq
  · intro msg e hallow hval
    unfold commandPath
    rw [if_neg (by rw [hallow]; simp), hval]
  · intro raw msg i p q v e hsize hn hid hp hty hq hg htv hnonce hval
    have heq := receive_eq_responsePath cfg st raw msg i p hd hsize hn hid hp hty
    unfold responsePath at heq
    dsimp only at heq
    rw [hg] at heq
    simp only at heq
    rw [if_neg (by rw [htv]; simp), if_neg hnonce, hval] at heq
    simp only at heq
    rw [heq]
    refine ⟨rfl, alookup_aerase_self _ _, ?_⟩
    simp only [promState, settlePromise, clearPending]
    rw [alookup_updAt_self, show alookup st.promises i = some q from hq]
    rfl

/-- A configuration whose validator for the response type throws. -/
def cfgV : Config :=
  { cfgA with validators := fun t =>
      if t = "get-response" then .vfn (fun _ => .error (.errObj "schema engine crashed"))
      else .vnone }

/-- Counterexample to claim C5 as frozen: on a trusted matched
response whose payload validator throws, `receive` returns normally
but the failure is not reported via the injected logger (the log is
unchanged) and the message is not dropped — it rejects the pending
request with the wrapped validation error. -/
theorem receive_validator_throw_not_logged_counterexample :
    validatePayload cfgV "get-response" (.strV "x") =
      .error (.validationE "Validator failed for type \"get-response\".") ∧
    (receive cfgV (.rawVal okResp) stDW).log = stDW.log ∧
    promState (receive cfgV (.rawVal okResp) stDW) "r1" =
      some (.rejectedP (.validationE "Validator failed for type \"get-response\".")) ∧
    pendState (receive cfgV (.rawVal okResp) stDW) "r1" = none := by
  refine ⟨by decide, by decide, by decide, by decide⟩

/-- A configuration with a one-byte inbound size limit. -/
def cfgTiny : Config := { cfgA with maxIncomingMessageBytes := 1 }

theorem receive_never_throws_witness :
    st0.disposed = false ∧
    getStringSizeInBytes "xx" > cfgTiny.maxIncomingMessageBytes ∧
    receive cfgTiny (.rawStr "xx") st0 =
      safeLogError st0 "[SimplexBus] Incoming message exceeds maxIncomingMessageBytes" ∧
    normalizeIncomingMessage cfgA.parser (.rawVal (.numV 5)) =
      .error (.busErr (.invalidMessageE "Incoming message must be an object.")) ∧
    receive cfgA (.rawVal (.numV 5)) st0 =
      safeLogError st0 "[SimplexBus] Invalid incoming message" := by
  have h := receive_never_throws cfgTiny st0 rfl
  have h2 := receive_never_throws cfgA st0 rfl
  exact ⟨rfl, by decide, h.1 "xx" (by decide), by decide,
    h2.2.1 (.rawVal (.numV 5)) (.busErr (.invalidMessageE "Incoming message must be an object."))
      rfl (by decide)⟩

/-!
Calls-tracking lemmas: listener invocations are recorded exactly by
the dispatch loop; the failure handlers never touch the `calls`
history.
-/

theorem sendEnvelope_ok_calls (cfg : Config) (st : BusState) (mtype : String)
    (message : Value) (g : Bool) (st' : BusState)
    (h : sendEnvelope cfg st mtype message g = .ok st') : st'.calls = st.calls := by
  unfold sendEnvelope at h
  split at h
  · exact Except.noConfusion h
  · split at h
    · exact Except.noConfusion h
    · split at h
      · exact Except.noConfusion h
      · split at h
        · exact Except.noConfusion h
        · injection h with h1
          subst h1
          rfl

theorem sendResponse_ok_calls (cfg : Config) (st : BusState) (msg : Msg)
    (payload : Value) (isErr : Bool) (b : Bool) (st' : BusState)
    (h : sendResponse cfg st msg payload isErr = .ok (b, st')) : st'.calls = st.calls := by
  unfold sendResponse at h
  split at h
  · injection h with h1
    rw [((Prod.mk.injEq _ _ _ _).mp h1).2.symm]
  · split at h
    all_goals
      dsimp only at h
      split at h
      case _ =>
        rename_i st2 hse
        injection h with h1
        rw [((Prod.mk.injEq _ _ _ _).mp h1).2.symm]
        exact sendEnvelope_ok_calls _ _ _ _ _ _ hse
      case _ => exact Except.noConfusion h

theorem handleListenerFailure_calls (cfg : Config) (msg : Msg) (e : Thrown)
    (st : BusState) : (handleListenerFailure cfg msg e st).calls = st.calls := by
  unfold handleListenerFailure
  split
  · rfl
  · dsimp only
    split
    · rename_i b st2 hsr
      exact sendResponse_ok_calls cfg
        (safeLogError st ("[SimplexBus] Handler failed for type \"" ++ msg.type ++ "\""))
        msg (toRemoteErrorPayload e) true b st2 hsr
    · rfl

theorem deferred_fold_calls (cfg : Config) (msg : Msg) :
    ∀ (pending : List Thrown) (st : BusState),
    (pending.foldl (fun s e => handleListenerFailure cfg msg e s) st).calls = st.calls := by
  intro pending
  induction pending with
  | nil => intro st; rfl
  | cons e rest ih =>
    intro st
    simp only [List.foldl_cons]
    rw [ih, handleListenerFailure_calls]

theorem loopStep_calls (cfg : Config) (msg : Msg) (acc : BusState × List Thrown)
    (l : Nat) : (loopStep cfg msg acc l).1.calls = acc.1.calls ++ [(l, msg.payload)] := by
  unfold loopStep
  cases hb : cfg.listenerBeh l msg.payload with
  | ret => rfl
  | asyncOk => rfl
  | lthrow e =>
    simp only
    rw [handleListenerFailure_calls]
  | asyncRej e => rfl

theorem dispatch_loop_calls (cfg : Config) (msg : Msg) :
    ∀ (ls : List Nat) (acc : BusState × List Thrown),
    (ls.foldl (loopStep cfg msg) acc).1.calls =
      acc.1.calls ++ ls.map (fun l => (l, msg.payload)) := by
  intro ls
  induction ls with
  | nil => intro acc; simp
  | cons l rest ih =>
    intro acc
    simp only [List.foldl_cons, List.map_cons]
    rw [ih, loopStep_calls]
    simp

/-- Listener dispatch appends exactly one invocation record per
registered listener, in order, with the message payload. -/
theorem dispatchToListeners_calls (cfg : Config) (msg : Msg) (ls : List Nat)
    (st : BusState) :
    (dispatchToListeners cfg msg ls st).calls =
      st.calls ++ ls.map (fun l => (l, msg.payload)) := by
  unfold dispatchToListeners
  rw [deferred_fold_calls, dispatch_loop_calls]

/-!
Claim C4: the send/receive round trip dispatches exactly the
registered listeners. As frozen, the claim omits the inbound size
check: when the serialized envelope exceeds `maxIncomingMessageBytes`,
`receive` drops it before parsing and no listener runs, falsifying the
claim; the amended theorem adds the size bound as a hypothesis.
-/

/-- Claim C4 (amended): for a valid `type`/`payload` (type allowed,
payload passing its validator, envelope serializable, parser inverting
the serializer on it) whose serialized form does not exceed
`maxIncomingMessageBytes`, `send(type, payload)` succeeds, and feeding
the serialized string into the same bus's `receive` invokes exactly
the listeners registered for that type, each once (the registered set
is duplicate-free), in order, with that payload as first argument. -/
theorem send_receive_roundtrip (cfg : Config) (st : BusState) (type : String)
    (payload : Value) (s : String)
    (hd : st.disposed = false)
    (ht : type.length > 0)
    (hallow : isAllowedType cfg type = true)
    (hval : validatePayload cfg type payload = .ok ())
    (hser : cfg.serializer (mkObj [("type", .strV type), ("payload", payload)]) = .ok s)
    (hsize : getStringSizeInBytes s ≤ cfg.maxIncomingMessageBytes)
    (hpar : cfg.parser s = .ok (mkObj [("type", .strV type), ("payload", payload)]))
    (hnd : ((alookup st.handlers type).getD []).Nodup) :
    send cfg st type payload = .ok { st with sent := st.sent ++ [s] } ∧
    (receive cfg (.rawStr s) { st with sent := st.sent ++ [s] }).calls =
      st.calls ++ ((alookup st.handlers type).getD []).map (fun l => (l, payload)) ∧
    (((alookup st.handlers type).getD []).map (fun l => (l, payload))).Nodup := by
  have hfT : getField (mkObj [("type", .strV type), ("payload", payload)]) "type" =
      .strV type := rfl
  have hfP : getField (mkObj [("type", .strV type), ("payload", payload)]) "payload" =
      payload := rfl
  have hfI : getField (mkObj [("type", .strV type), ("payload", payload)]) "id" =
      .undefV := rfl
  have hfN : getField (mkObj [("type", .strV type), ("payload", payload)]) "nonce" =
      .undefV := rfl
  have hobj : isObjectV (mkObj [("type", .strV type), ("payload", payload)]) = true := rfl
  have hnes : isNonEmptyStringV (.strV type) = true := by
    simp only [isNonEmptyStringV]
    exact decide_eq_true ht
  have hmsg : normalizeIncomingMessage cfg.parser (.rawStr s) =
      .ok { type := type, id := none, nonce := none, payload := payload, isError := .undefV } := by
    unfold normalizeIncomingMessage
    dsimp only
    rw [hpar]
    dsimp only
    rw [hfT, hfI, hfN, hfP]
    rw [if_neg (by simp [hobj]), if_neg (by simp [hnes]), if_neg (by simp), if_neg (by simp)]
    rfl
  have hsend : send cfg st type payload = .ok { st with sent := st.sent ++ [s] } := by
    unfold send sendEnvelope
    rw [if_neg (by omega), if_neg (by rw [hd]; simp),
      if_neg (by rw [hallow]; simp)]
    rw [hfP, hval, hser]
  set stS := { st with sent := st.sent ++ [s] } with hstS
  have hroute : receive cfg (.rawStr s) stS = commandPath cfg
      { type := type, id := none, nonce := none, payload := payload, isError := .undefV } stS := by
    apply receive_eq_commandPath_nopending cfg stS (.rawStr s) _ hd
    · simp only
      rw [decide_eq_false
        (show ¬ getStringSizeInBytes s > cfg.maxIncomingMessageBytes by omega)]
    · exact hmsg
    · simp
  have hcalls : (receive cfg (.rawStr s) stS).calls =
      st.calls ++ ((alookup st.handlers type).getD []).map (fun l => (l, payload)) := by
    rw [hroute]
    unfold commandPath
    rw [if_neg (by rw [hallow]; simp)]
    simp only
    rw [hval]
    simp only
    cases hls : alookup st.handlers type with
    | none =>
      simp
    | some listeners =>
      simp only
      by_cases hlen : listeners.length = 0
      · rw [if_pos hlen]
        have : listeners = [] := List.length_eq_zero.mp hlen
        subst this
        simp [hstS]
      · rw [if_neg hlen]
        rw [dispatchToListeners_calls]
        simp [hstS]
  refine ⟨hsend, hcalls, ?_⟩
  exact List.Nodup.map (fun a b hab => by
    injection hab with h1 h2) hnd

/-- The plain `ping` envelope `{type, payload}`. -/
def pingEnv : Value := mkObj [("type", .strV "ping"), ("payload", .strV "pl")]

/-- A configuration with a one-byte inbound limit whose serializer and
parser round-trip the `ping` envelope through the two-byte string
`xx`. -/
def cfgC4 : Config :=
  { cfgA with
    maxIncomingMessageBytes := 1
    serializer := fun _ => .ok "xx"
    parser := fun _ => .ok pingEnv }

/-- Counterexample to claim C4 as frozen: the envelope is valid
(allowed type, passing validator, serializable, parser inverts the
serializer), a listener is registered for `ping`, yet feeding the
serialized string back into `receive` invokes no listener at all —
the two-byte string exceeds `maxIncomingMessageBytes` and is dropped
before parsing. -/
theorem send_receive_roundtrip_counterexample :
    isAllowedType cfgC4 "ping" = true ∧
    validatePayload cfgC4 "ping" (.strV "pl") = .ok () ∧
    cfgC4.serializer pingEnv = .ok "xx" ∧
    cfgC4.parser "xx" = .ok pingEnv ∧
    send cfgC4 stPing "ping" (.strV "pl") = .ok { stPing with sent := ["xx"] } ∧
    alookup stPing.handlers "ping" = some [1] ∧
    (receive cfgC4 (.rawStr "xx") { stPing with sent := ["xx"] }).calls = [] := by
  refine ⟨rfl, rfl, rfl, rfl, by decide, by decide, by decide⟩

/-- The witness configuration: defaults plus a parser that inverts the
constant serializer on the `ping` envelope. -/
def cfgP : Config := { cfgA with parser := fun _ => .ok pingEnv }

theorem send_receive_roundtrip_witness :
    stPing.disposed = false ∧
    ("ping".length > 0) ∧
    isAllowedType cfgP "ping" = true ∧
    validatePayload cfgP "ping" (.strV "pl") = .ok () ∧
    cfgP.serializer pingEnv = .ok "S" ∧
    getStringSizeInBytes "S" ≤ cfgP.maxIncomingMessageBytes ∧
    cfgP.parser "S" = .ok pingEnv ∧
    send cfgP stPing "ping" (.strV "pl") = .ok { stPing with sent := stPing.sent ++ ["S"] } ∧
    (receive cfgP (.rawStr "S") { stPing with sent := stPing.sent ++ ["S"] }).calls =
      [(1, .strV "pl")] := by
  have h := send_receive_roundtrip cfgP
    stPing "ping" (.strV "pl") "S" rfl (by decide) rfl rfl rfl (by decide) rfl (by decide)
  refine ⟨rfl, by decide, rfl, rfl, rfl, by decide, rfl, h.1, ?_⟩
  rw [h.2.1]
  decide

/-!
Log/sent extension lemmas: every dispatch helper only appends to the
log and the transport history. These support the listener-isolation
claim.
-/

/-- `st'` extends `st`'s log and sent histories. -/
def ExtLS (st st' : BusState) : Prop :=
  (∃ t, st'.log = st.log ++ t) ∧ (∃ u, st'.sent = st.sent ++ u)

theorem extLS_refl (st : BusState) : ExtLS st st :=
  ⟨⟨[], by simp⟩, ⟨[], by simp⟩⟩

theorem extLS_trans {a b c : BusState} (h1 : ExtLS a b) (h2 : ExtLS b c) : ExtLS a c := by
  obtain ⟨⟨t1, hl1⟩, ⟨u1, hs1⟩⟩ := h1
  obtain ⟨⟨t2, hl2⟩, ⟨u2, hs2⟩⟩ := h2
  exact ⟨⟨t1 ++ t2, by rw [hl2, hl1, List.append_assoc]⟩,
    ⟨u1 ++ u2, by rw [hs2, hs1, List.append_assoc]⟩⟩

theorem extLS_mem_log {a b : BusState} (h : ExtLS a b) (e : String) (he : e ∈ a.log) :
    e ∈ b.log := by
  obtain ⟨⟨t, hl⟩, _⟩ := h
  rw [hl]
  exact List.mem_append_left _ he

theorem extLS_mem_sent {a b : BusState} (h : ExtLS a b) (s : String) (hs : s ∈ a.sent) :
    s ∈ b.sent := by
  obtain ⟨_, ⟨u, hu⟩⟩ := h
  rw [hu]
  exact List.mem_append_left _ hs

theorem safeLogError_ext (st : BusState) (e : String) : ExtLS st (safeLogError st e) :=
  ⟨⟨[e], rfl⟩, ⟨[], by simp [safeLogError]⟩⟩

theorem sendEnvelope_ok_ext (cfg : Config) (st : BusState) (mtype : String)
    (message : Value) (g : Bool) (st' : BusState)
    (h : sendEnvelope cfg st mtype message g = .ok st') : ExtLS st st' := by
  unfold sendEnvelope at h
  split at h
  · exact Except.noConfusion h
  · split at h
    · exact Except.noConfusion h
    · split at h
      · exact Except.noConfusion h
      · split at h
        · exact Except.noConfusion h
        · rename_i s hser
          injection h with h1
          subst h1
          exact ⟨⟨[], by simp⟩, ⟨[s], rfl⟩⟩

theorem sendResponse_ok_ext (cfg : Config) (st : BusState) (msg : Msg)
    (payload : Value) (isErr : Bool) (b : Bool) (st' : BusState)
    (h : sendResponse cfg st msg payload isErr = .ok (b, st')) : ExtLS st st' := by
  unfold sendResponse at h
  split at h
  · injection h with h1
    rw [((Prod.mk.injEq _ _ _ _).mp h1).2.symm]
    exact extLS_refl st
  · split at h
    all_goals
      dsimp only at h
      split at h
      case _ =>
        rename_i st2 hse
        injection h with h1
        rw [((Prod.mk.injEq _ _ _ _).mp h1).2.symm]
        exact sendEnvelope_ok_ext _ _ _ _ _ _ hse
      case _ => exact Except.noConfusion h

theorem handleListenerFailure_ext (cfg : Config) (msg : Msg) (e : Thrown)
    (st : BusState) : ExtLS st (handleListenerFailure cfg msg e st) := by
  unfold handleListenerFailure
  split
  · exact safeLogError_ext st _
  · dsimp only
    split
    · rename_i b st2 hsr
      exact extLS_trans (safeLogError_ext st _)
        (sendResponse_ok_ext cfg
          (safeLogError st ("[SimplexBus] Handler failed for type \"" ++ msg.type ++ "\""))
          msg (toRemoteErrorPayload e) true b st2 hsr)
    · exact extLS_trans (safeLogError_ext st _) (safeLogError_ext _ _)

theorem deferred_fold_ext (cfg : Config) (msg : Msg) :
    ∀ (pending : List Thrown) (st : BusState),
    ExtLS st (pending.foldl (fun s e => handleListenerFailure cfg msg e s) st) := by
  intro pending
  induction pending with
  | nil => intro st; exact extLS_refl st
  | cons e rest ih =>
    intro st
    simp only [List.foldl_cons]
    exact extLS_trans (handleListenerFailure_ext cfg msg e st) (ih _)

theorem loopStep_ext (cfg : Config) (msg : Msg) (acc : BusState × List Thrown)
    (l : Nat) : ExtLS acc.1 (loopStep cfg msg acc l).1 := by
  unfold loopStep
  cases hb : cfg.listenerBeh l msg.payload with
  | ret => exact ⟨⟨[], by simp⟩, ⟨[], by simp⟩⟩
  | asyncOk => exact ⟨⟨[], by simp⟩, ⟨[], by simp⟩⟩
  | lthrow e =>
    simp only
    exact extLS_trans
      (⟨⟨[], by simp⟩, ⟨[], by simp⟩⟩ :
        ExtLS acc.1 { acc.1 with calls := acc.1.calls ++ [(l, msg.payload)] })
      (handleListenerFailure_ext cfg msg e _)
  | asyncRej e => exact ⟨⟨[], by simp⟩, ⟨[], by simp⟩⟩

theorem dispatch_loop_ext (cfg : Config) (msg : Msg) :
    ∀ (ls : List Nat) (acc : BusState × List Thrown),
    ExtLS acc.1 (ls.foldl (loopStep cfg msg) acc).1 := by
  intro ls
  induction ls with
  | nil => intro acc; exact extLS_refl acc.1
  | cons l rest ih =>
    intro acc
    simp only [List.foldl_cons]
    exact extLS_trans (loopStep_ext cfg msg acc l) (ih _)

/-- The leading string `safeLogError` receives when a listener for
`msg` fails. -/
def failEntry (msg : Msg) : String :=
  "[SimplexBus] Handler failed for type \"" ++ msg.type ++ "\""

/-- The envelope object `sendResponse` hands to the serializer for a
message with id `i`. -/
def respEnvelope (cfg : Config) (msg : Msg) (i : String) (pl : Value) (isErr : Bool) :
    Value :=
  mkObj [("type", .strV (getResponseType cfg msg.type)), ("payload", pl), ("id", .strV i),
    ("nonce", match msg.nonce with | some n => .strV n | none => .undefV),
    ("isError", .boolV isErr)]

/-- Effect of `handleListenerFailure` when the inbound message carried
an id and the automatic error response can be validated and
serialized: the failure is logged and the serialized error response is
handed to the transport. -/
theorem handleListenerFailure_appends (cfg : Config) (msg : Msg) (i : String)
    (e : Thrown) (st : BusState) (rs : String)
    (hid : msg.id = some i)
    (hd : st.disposed = false)
    (hval2 : validatePayload cfg (getResponseType cfg msg.type) (toRemoteErrorPayload e) = .ok ())
    (hser2 : cfg.serializer (respEnvelope cfg msg i (toRemoteErrorPayload e) true) = .ok rs) :
    (handleListenerFailure cfg msg e st).log = st.log ++ [failEntry msg] ∧
    (handleListenerFailure cfg msg e st).sent = st.sent ++ [rs] := by
  unfold handleListenerFailure
  rw [hid]
  dsimp only
  have hpl : getField (respEnvelope cfg msg i (toRemoteErrorPayload e) true) "payload" =
      toRemoteErrorPayload e := by
    cases msg.nonce <;> rfl
  have hsr : sendResponse cfg (safeLogError st (failEntry msg)) msg (toRemoteErrorPayload e)
      true = .ok (true, { safeLogError st (failEntry msg) with
        sent := (safeLogError st (failEntry msg)).sent ++ [rs] }) := by
    unfold sendResponse
    rw [hid]
    dsimp only
    unfold sendEnvelope
    rw [if_neg (by simp only [safeLogError]; rw [hd]; simp)]
    rw [if_neg (by simp)]
    unfold respEnvelope at hpl hser2
    rw [hpl, hval2, hser2]
  rw [show safeLogError st ("[SimplexBus] Handler failed for type \"" ++ msg.type ++ "\"") =
    safeLogError st (failEntry msg) from rfl]
  rw [hsr]
  exact ⟨rfl, rfl⟩

theorem loopStep_snd (cfg : Config) (msg : Msg) (acc : BusState × List Thrown)
    (l : Nat) : ∃ t, (loopStep cfg msg acc l).2 = acc.2 ++ t := by
  unfold loopStep
  cases hb : cfg.listenerBeh l msg.payload with
  | ret => exact ⟨[], by simp⟩
  | asyncOk => exact ⟨[], by simp⟩
  | lthrow e => exact ⟨[], by simp⟩
  | asyncRej e => exact ⟨[e], rfl⟩

theorem dispatch_loop_snd_ext (cfg : Config) (msg : Msg) :
    ∀ (ls : List Nat) (acc : BusState × List Thrown),
    ∃ t, (ls.foldl (loopStep cfg msg) acc).2 = acc.2 ++ t := by
  intro ls
  induction ls with
  | nil => intro acc; exact ⟨[], by simp⟩
  | cons l rest ih =>
    intro acc
    simp only [List.foldl_cons]
    obtain ⟨t1, ht1⟩ := loopStep_snd cfg msg acc l
    obtain ⟨t2, ht2⟩ := ih (loopStep cfg msg acc l)
    exact ⟨t1 ++ t2, by rw [ht2, ht1, List.append_assoc]⟩

theorem dispatch_loop_snd_mem (cfg : Config) (msg : Msg) (e : Thrown) :
    ∀ (ls : List Nat) (acc : BusState × List Thrown) (l : Nat), l ∈ ls →
    cfg.listenerBeh l msg.payload = .asyncRej e →
    e ∈ (ls.foldl (loopStep cfg msg) acc).2 := by
  intro ls
  induction ls with
  | nil => intro acc l hmem; simp at hmem
  | cons l0 rest ih =>
    intro acc l hmem hb
    simp only [List.foldl_cons]
    rcases List.mem_cons.mp hmem with h1 | h1
    · subst h1
      obtain ⟨t, ht⟩ := dispatch_loop_snd_ext cfg msg rest (loopStep cfg msg acc l)
      rw [ht]
      have hstep : (loopStep cfg msg acc l).2 = acc.2 ++ [e] := by
        unfold loopStep
        rw [hb]
      rw [hstep]
      simp
    · exact ih _ l h1 hb

theorem deferred_fold_effects (cfg : Config) (msg : Msg) (i : String) (e : Thrown)
    (rs : String)
    (hid : msg.id = some i)
    (hval2 : validatePayload cfg (getResponseType cfg msg.type) (toRemoteErrorPayload e) = .ok ())
    (hser2 : cfg.serializer (respEnvelope cfg msg i (toRemoteErrorPayload e) true) = .ok rs) :
    ∀ (pending : List Thrown) (st : BusState), e ∈ pending → st.disposed = false →
    failEntry msg ∈ (pending.foldl (fun s x => handleListenerFailure cfg msg x s) st).log ∧
    rs ∈ (pending.foldl (fun s x => handleListenerFailure cfg msg x s) st).sent := by
  intro pending
  induction pending with
  | nil => intro st hmem; simp at hmem
  | cons e0 rest ih =>
    intro st hmem hd
    simp only [List.foldl_cons]
    rcases List.mem_cons.mp hmem with h1 | h1
    · subst h1
      have happ := handleListenerFailure_appends cfg msg i e st rs hid hd hval2 hser2
      have hext := deferred_fold_ext cfg msg rest (handleListenerFailure cfg msg e st)
      constructor
      · exact extLS_mem_log hext _ (by rw [happ.1]; simp [failEntry])
      · exact extLS_mem_sent hext _ (by rw [happ.2]; simp)
    · have hd0 : (handleListenerFailure cfg msg e0 st).disposed = false :=
        (handleListenerFailure_core cfg msg e0 st).1.trans hd
      exact ih _ h1 hd0

theorem dispatch_loop_sync_effects (cfg : Config) (msg : Msg) (i : String) (e : Thrown)
    (rs : String)
    (hid : msg.id = some i)
    (hval2 : validatePayload cfg (getResponseType cfg msg.type) (toRemoteErrorPayload e) = .ok ())
    (hser2 : cfg.serializer (respEnvelope cfg msg i (toRemoteErrorPayload e) true) = .ok rs) :
    ∀ (ls : List Nat) (acc : BusState × List Thrown) (l : Nat), l ∈ ls →
    cfg.listenerBeh l msg.payload = .lthrow e →
    acc.1.disposed = false →
    failEntry msg ∈ (ls.foldl (loopStep cfg msg) acc).1.log ∧
    rs ∈ (ls.foldl (loopStep cfg msg) acc).1.sent := by
  intro ls
  induction ls with
  | nil => intro acc l hmem; simp at hmem
  | cons l0 rest ih =>
    intro acc l hmem hb hd
    simp only [List.foldl_cons]
    rcases List.mem_cons.mp hmem with h1 | h1
    · subst h1
      have hd1 : ({ acc.1 with calls := acc.1.calls ++ [(l, msg.payload)] } : BusState).disposed
          = false := hd
      have happ := handleListenerFailure_appends cfg msg i e
        { acc.1 with calls := acc.1.calls ++ [(l, msg.payload)] } rs hid hd1 hval2 hser2
      have hstep : loopStep cfg msg acc l =
          (handleListenerFailure cfg msg e
            { acc.1 with calls := acc.1.calls ++ [(l, msg.payload)] }, acc.2) := by
        unfold loopStep
        rw [hb]
      rw [hstep]
      have hext := dispatch_loop_ext cfg msg rest
        (handleListenerFailure cfg msg e
          { acc.1 with calls := acc.1.calls ++ [(l, msg.payload)] }, acc.2)
      constructor
      · exact extLS_mem_log hext _ (by rw [happ.1]; simp [failEntry])
      · exact extLS_mem_sent hext _ (by rw [happ.2]; simp)
    · have hd0 : (loopStep cfg msg acc l0).1.disposed = false :=
        (loopStep_core cfg msg acc l0).1.trans hd
      exact ih _ l h1 hb hd0

/-- Shared helper: a trusted, nonce-valid, validator-passing response
with truthy `isError` clears the pending entry and rejects the promise
with `RemoteError(requestType, payload)`. -/
theorem remote_reject_helper (cfg : Config) (st : BusState) (raw : Raw)
    (msg : Msg) (i : String) (p : Pending) (q : PState) (v : Value)
    (hd : st.disposed = false)
    (hsize : (match raw with
      | .rawStr s => decide (getStringSizeInBytes s > cfg.maxIncomingMessageBytes)
      | .rawVal _ => false) = false)
    (hn : normalizeIncomingMessage cfg.parser raw = .ok msg)
    (hid : msg.id = some i)
    (hp : pendState st i = some p)
    (hty : msg.type = p.expectedResponseType)
    (hq : promState st i = some q)
    (hg : cfg.isTrustedResponse (mkTrustCtx msg p i raw) = .ok v)
    (htv : truthy v = true)
    (hnonce : ¬ (isStrictResponseTrust cfg = true ∧ msg.nonce ≠ some p.nonce))
    (hval : validatePayload cfg msg.type msg.payload = .ok ())
    (hie : truthy msg.isError = true) :
    pendState (receive cfg raw st) i = none ∧
    promState (receive cfg raw st) i = some (.rejectedP (.remoteE p.type msg.payload)) := by
  have heq := receive_eq_responsePath cfg st raw msg i p hd hsize hn hid hp hty
  unfold responsePath at heq
  dsimp only at heq
  rw [hg] at heq
  simp only at heq
  rw [if_neg (by rw [htv]; simp), if_neg hnonce, hval] at heq
  simp only at heq
  rw [if_pos hie] at heq
  rw [heq]
  refine ⟨alookup_aerase_self _ _, ?_⟩
  simp only [promState, settlePromise, clearPending]
  rw [alookup_updAt_self, show alookup st.promises i = some q from hq]
  rfl

/-!
Claim C8: a failing listener (synchronous throw or rejected returned
promise) is handled in isolation — the failure is logged, an automatic
error response is sent when the message carried an id, siblings still
run, and the remote requester's promise rejects with `RemoteError`.
-/

/-- Claim C8: during listener dispatch for one inbound message, a
listener that throws synchronously or whose returned promise rejects is
handled in isolation: every sibling listener registered for the type
still runs (each exactly once, in order), the failure is logged, and
when the message carried an id an error response whose payload is
`{message: <thrown error's message text>}` is handed to the transport
(provided the injected validator and serializer accept it); a bus
holding the matching pending request that receives that error response
rejects the requester's promise with `RemoteError`. -/
theorem listener_failure_isolation (cfg : Config) (st : BusState) (raw : Raw)
    (msg : Msg) (listeners : List Nat)
    (hd : st.disposed = false)
    (hsize : (match raw with
      | .rawStr s => decide (getStringSizeInBytes s > cfg.maxIncomingMessageBytes)
      | .rawVal _ => false) = false)
    (hn : normalizeIncomingMessage cfg.parser raw = .ok msg)
    (hroute : (match msg.id with
      | some i => alookup st.pending i = none
      | none => True))
    (hallow : isAllowedType cfg msg.type = true)
    (hval : validatePayload cfg msg.type msg.payload = .ok ())
    (hls : alookup st.handlers msg.type = some listeners)
    (hne : ¬ listeners.length = 0) :
    receive cfg raw st = dispatchToListeners cfg msg listeners st ∧
    (receive cfg raw st).calls = st.calls ++ listeners.map (fun l => (l, msg.payload)) ∧
    (∀ l e i rs, l ∈ listeners →
      (cfg.listenerBeh l msg.payload = .lthrow e ∨
        cfg.listenerBeh l msg.payload = .asyncRej e) →
      msg.id = some i →
      validatePayload cfg (getResponseType cfg msg.type) (toRemoteErrorPayload e) = .ok () →
      cfg.serializer (respEnvelope cfg msg i (toRemoteErrorPayload e) true) = .ok rs →
      failEntry msg ∈ (receive cfg raw st).log ∧ rs ∈ (receive cfg raw st).sent) ∧
    (∀ cfg2 st2 raw2 msgR i2 p2 q2 v2 e,
      st2.disposed = false →
      (match raw2 with
        | .rawStr s => decide (getStringSizeInBytes s > cfg2.maxIncomingMessageBytes)
        | .rawVal _ => false) = false →
      normalizeIncomingMessage cfg2.parser raw2 = .ok msgR →
      msgR.id = some i2 →
      pendState st2 i2 = some p2 →
      msgR.type = p2.expectedResponseType →
      promState st2 i2 = some q2 →
      cfg2.isTrustedResponse (mkTrustCtx msgR p2 i2 raw2) = .ok v2 →
      truthy v2 = true →
      ¬ (isStrictResponseTrust cfg2 = true ∧ msgR.nonce ≠ some p2.nonce) →
      validatePayload cfg2 msgR.type msgR.payload = .ok () →
      msgR.payload = toRemoteErrorPayload e →
      truthy msgR.isError = true →
      promState (receive cfg2 raw2 st2) i2 =
        some (.rejectedP (.remoteE p2.type (toRemoteErrorPayload e)))) := by
  have hcmd : receive cfg raw st = commandPath cfg msg st :=
    receive_eq_commandPath_nopending cfg st raw msg hd hsize hn hroute
  have hdisp : receive cfg raw st = dispatchToListeners cfg msg listeners st := by
    rw [hcmd]
    unfold commandPath
    rw [if_neg (by rw [hallow]; simp), hval]
    simp only
    cases hcase : alookup st.handlers msg.type with
    | none =>
      rw [hls] at hcase
      exact Option.noConfusion hcase
    | some ls2 =>
      have hsome := hls.symm.trans hcase
      injection hsome with hsome
      subst hsome
      simp only
      rw [if_neg hne]
  refine ⟨hdisp, ?_, ?_, ?_⟩
  · rw [hdisp, dispatchToListeners_calls]
  · intro l e i rs hmem hb hid hval2 hser2
    rw [hdisp]
    unfold dispatchToListeners
    rcases hb with hb | hb
    · have hsync := dispatch_loop_sync_effects cfg msg i e rs hid hval2 hser2
        listeners (st, []) l hmem hb hd
      have hext := deferred_fold_ext cfg msg
        (listeners.foldl (loopStep cfg msg) (st, [])).2
        (listeners.foldl (loopStep cfg msg) (st, [])).1
      exact ⟨extLS_mem_log hext _ hsync.1, extLS_mem_sent hext _ hsync.2⟩
    · have hmem2 := dispatch_loop_snd_mem cfg msg e listeners (st, []) l hmem hb
      have hd2 : (listeners.foldl (loopStep cfg msg) (st, [])).1.disposed = false :=
        (dispatch_loop_core cfg msg listeners (st, [])).1.trans hd
      exact deferred_fold_effects cfg msg i e rs hid hval2 hser2 _ _ hmem2 hd2
  · intro cfg2 st2 raw2 msgR i2 p2 q2 v2 e hd2 hsize2 hn2 hid2 hp2 hty2 hq2 hg2 htv2
      hnonce2 hval2 hpl2 hie2
    have h := remote_reject_helper cfg2 st2 raw2 msgR i2 p2 q2 v2 hd2 hsize2 hn2 hid2
      hp2 hty2 hq2 hg2 htv2 hnonce2 hval2 hie2
    rw [hpl2] at h
    exact h.2

/-- Witness configuration for listener isolation: listener 1 throws an
`Error` whose message is `boom`, listener 2 returns normally; the
serializer produces `RS`. -/
def cfgW8 : Config :=
  { cfgA with
    listenerBeh := fun l _ => if l = 1 then .lthrow (.errObj "boom") else .ret
    serializer := fun _ => .ok "RS" }

/-- A bus with listeners 1 and 2 registered for `ping`. -/
def stH8 : BusState := { st0 with handlers := [("ping", [1, 2])] }

/-- A request-shaped inbound `ping` message (it carries an id). -/
def pingReq : Value :=
  mkObj [("type", .strV "ping"), ("id", .strV "q1"), ("payload", .strV "pl")]

/-- The normalized form of `pingReq`. -/
def msgPingReq : Msg :=
  { type := "ping", id := some "q1", nonce := none,
    payload := .strV "pl", isError := .undefV }

/-- The pending request on the requester bus that awaits the `ping`
response. -/
def pendQ : Pending :=
  { type := "ping", expectedResponseType := "ping-response", nonce := "nq",
    hasSignal := false, timeoutMs := 5000 }

/-- The requester bus state holding the pending request `q1`. -/
def stQ : BusState :=
  { st0 with
    pending := [("q1", pendQ)]
    promises := [("q1", .unsettled)] }

theorem listener_failure_isolation_witness :
    stH8.disposed = false ∧
    normalizeIncomingMessage cfgW8.parser (.rawVal pingReq) = .ok msgPingReq ∧
    alookup stH8.handlers "ping" = some [1, 2] ∧
    cfgW8.listenerBeh 1 (.strV "pl") = .lthrow (.errObj "boom") ∧
    (receive cfgW8 (.rawVal pingReq) stH8).calls =
      [(1, .strV "pl"), (2, .strV "pl")] ∧
    failEntry msgPingReq ∈ (receive cfgW8 (.rawVal pingReq) stH8).log ∧
    "RS" ∈ (receive cfgW8 (.rawVal pingReq) stH8).sent ∧
    promState (receive cfgA
        (.rawVal (respEnvelope cfgW8 msgPingReq "q1"
          (toRemoteErrorPayload (.errObj "boom")) true)) stQ) "q1" =
      some (.rejectedP (.remoteE "ping" (toRemoteErrorPayload (.errObj "boom")))) := by
  have h := listener_failure_isolation cfgW8 stH8 (.rawVal pingReq) msgPingReq [1, 2]
    rfl rfl (by decide) (show alookup stH8.pending "q1" = none by decide)
    rfl rfl (by decide) (by decide)
  have hfail := h.2.2.1 1 (.errObj "boom") "q1" "RS" (by decide) (Or.inl rfl) rfl rfl rfl
  have hremote := h.2.2.2 cfgA stQ
    (.rawVal (respEnvelope cfgW8 msgPingReq "q1" (toRemoteErrorPayload (.errObj "boom")) true))
    { type := "ping-response", id := some "q1", nonce := none,
      payload := toRemoteErrorPayload (.errObj "boom"), isError := .boolV true }
    "q1" pendQ .unsettled (.boolV true) (.errObj "boom")
    rfl rfl (by decide) rfl (by decide) (by decide) (by decide) rfl rfl (by decide)
    (by decide) rfl rfl
  refine ⟨rfl, by decide, by decide, rfl, ?_, hfail.1, hfail.2, hremote⟩
  rw [h.2.1]
  decide

/-!
Claim C1 machinery: the settlement invariant. A request's promise,
once settled by one mechanism, can never be settled again, because
every settling mechanism is guarded by the presence of the pending
entry and clears it. `settleInvB st id` states that a settled promise
has no pending entry, and that a pending entry always has a promise to
settle.
-/

/-- The settlement invariant for correlation id `id`. -/
def settleInvB (st : BusState) (id : String) : Bool :=
  (match promState st id with
   | some o => !o.isSettled || (pendState st id).isNone
   | none => true) &&
  (match pendState st id with
   | some _ => (promState st id).isSome
   | none => true)

/-- The response path leaves every other id's pending entry and promise
untouched. -/
theorem responsePath_other (cfg : Config) (msg : Msg) (p : Pending) (i : String)
    (raw : Raw) (st : BusState) (id : String) (hne : i ≠ id) :
    promState (responsePath cfg msg p i raw st) id = promState st id ∧
    pendState (responsePath cfg msg p i raw st) id = pendState st id := by
  unfold responsePath
  dsimp only
  split
  · exact ⟨rfl, rfl⟩
  · split
    · exact ⟨rfl, rfl⟩
    · split
      · exact ⟨rfl, rfl⟩
      · split
        · simp only [promState, pendState, settlePromise, clearPending]
          exact ⟨alookup_updAt_ne _ _ _ _ hne, alookup_aerase_ne _ _ _ hne⟩
        · split
          · simp only [promState, pendState, settlePromise, clearPending]
            exact ⟨alookup_updAt_ne _ _ _ _ hne, alookup_aerase_ne _ _ _ hne⟩
          · simp only [promState, pendState, settlePromise, clearPending]
            exact ⟨alookup_updAt_ne _ _ _ _ hne, alookup_aerase_ne _ _ _ hne⟩

/-- The response path for id `i` either leaves `i` untouched (a drop)
or clears its pending entry and settles its promise. -/
theorem responsePath_self (cfg : Config) (msg : Msg) (p : Pending) (i : String)
    (raw : Raw) (st : BusState) :
    (promState (responsePath cfg msg p i raw st) i = promState st i ∧
      pendState (responsePath cfg msg p i raw st) i = pendState st i) ∨
    (pendState (responsePath cfg msg p i raw st) i = none ∧
      ∃ out, out.isSettled = true ∧
        promState (responsePath cfg msg p i raw st) i =
          (promState st i).map (fun _ => out)) := by
  unfold responsePath
  dsimp only
  split
  · exact Or.inl ⟨rfl, rfl⟩
  · split
    · exact Or.inl ⟨rfl, rfl⟩
    · split
      · exact Or.inl ⟨rfl, rfl⟩
      · split
        · rename_i e hv
          refine Or.inr ⟨?_, .rejectedP e, rfl, ?_⟩
          · simp only [pendState, settlePromise, clearPending]
            exact alookup_aerase_self _ _
          · simp only [promState, settlePromise, clearPending]
            exact alookup_updAt_self _ _ _
        · split
          · refine Or.inr ⟨?_, .rejectedP (.remoteE p.type msg.payload), rfl, ?_⟩
            · simp only [pendState, settlePromise, clearPending]
              exact alookup_aerase_self _ _
            · simp only [promState, settlePromise, clearPending]
              exact alookup_updAt_self _ _ _
          · refine Or.inr ⟨?_, .resolvedP msg.payload, rfl, ?_⟩
            · simp only [pendState, settlePromise, clearPending]
              exact alookup_aerase_self _ _
            · simp only [promState, settlePromise, clearPending]
              exact alookup_updAt_self _ _ _

/-- One `receive` call either leaves a given id's pending entry and
promise untouched, or — only possible while the id's entry exists —
clears the entry and settles the promise. -/
theorem receive_id_cases (cfg : Config) (raw : Raw) (st : BusState) (id : String) :
    (promState (receive cfg raw st) id = promState st id ∧
      pendState (receive cfg raw st) id = pendState st id) ∨
    (pendState st id ≠ none ∧ pendState (receive cfg raw st) id = none ∧
      ∃ out, out.isSettled = true ∧
        promState (receive cfg raw st) id = (promState st id).map (fun _ => out)) := by
  have hcmd : ∀ msg : Msg,
      promState (commandPath cfg msg st) id = promState st id ∧
      pendState (commandPath cfg msg st) id = pendState st id := by
    intro msg
    have hc := commandPath_core cfg msg st
    exact ⟨congrArg (fun l => alookup l id) hc.2.2.1,
      congrArg (fun l => alookup l id) hc.2.1⟩
  unfold receive
  split
  · exact Or.inl ⟨rfl, rfl⟩
  · split
    · exact Or.inl ⟨rfl, rfl⟩
    · split
      · exact Or.inl ⟨rfl, rfl⟩
      · rename_i msg hn
        split
        · rename_i i hi
          split
          · rename_i p hp
            split
            · by_cases hii : i = id
              · subst hii
                rcases responsePath_self cfg msg p i raw st with h | h
                · exact Or.inl h
                · refine Or.inr ⟨?_, h.1, h.2⟩
                  rw [show pendState st i = some p from hp]
                  simp
              · exact Or.inl (responsePath_other cfg msg p i raw st id hii)
            · exact Or.inl (hcmd msg)
          · exact Or.inl (hcmd msg)
        · exact Or.inl (hcmd msg)

/-- `receive` preserves the settlement invariant. -/
theorem receive_inv (cfg : Config) (raw : Raw) (st : BusState) (id : String)
    (h : settleInvB st id = true) : settleInvB (receive cfg raw st) id = true := by
  rcases receive_id_cases cfg raw st id with ⟨h1, h2⟩ | ⟨hne, h2, out, hset, h3⟩
  · unfold settleInvB at h ⊢
    rw [h1, h2]
    exact h
  · unfold settleInvB
    rw [h2, h3]
    cases promState st id with
    | none => simp
    | some o => simp

/-- While a given id has no pending entry, `receive` cannot touch its
promise. -/
theorem receive_frozen (cfg : Config) (raw : Raw) (st : BusState) (id : String)
    (hpend : pendState st id = none) :
    promState (receive cfg raw st) id = promState st id ∧
    pendState (receive cfg raw st) id = none := by
  rcases receive_id_cases cfg raw st id with ⟨h1, h2⟩ | ⟨hne, _, _⟩
  · exact ⟨h1, h2.trans hpend⟩
  · exact absurd hpend hne

/-- A `request` call for a different id leaves this id's pending entry
and promise untouched. -/
theorem request_other (cfg : Config) (st : BusState) (type : String) (payload : Value)
    (arg : ReqArg) (j nonce : String) (st' : BusState) (id : String) (hne : j ≠ id)
    (h : request cfg st type payload arg j nonce = .promised st') :
    promState st' id = promState st id ∧ pendState st' id = pendState st id := by
  have hcommit : ∀ st1 ty ert hs tmo,
      requestCommit cfg st1 ty payload j nonce ert hs tmo = .promised st' →
      promState st' id = promState st1 id ∧ pendState st' id = pendState st1 id := by
    intro st1 ty ert hs tmo hc
    unfold requestCommit at hc
    dsimp only at hc
    split at hc
    · rename_i st3 hse
      injection hc with hc1
      subst hc1
      have hcore := sendEnvelope_ok_core _ _ _ _ _ _ hse
      constructor
      · show alookup st3.promises id = alookup st1.promises id
        rw [hcore.2.2.1]
      · show alookup st3.pending id = alookup st1.pending id
        rw [hcore.2.1]
        exact alookup_aset_ne _ _ _ _ hne
    · injection hc with hc1
      subst hc1
      constructor
      · simp only [promState, settlePromise, clearPending]
        rw [alookup_updAt_ne _ _ _ _ hne]
      · simp only [pendState, settlePromise, clearPending]
        rw [alookup_aerase_ne _ _ _ hne]
        exact alookup_aset_ne _ _ _ _ hne
  unfold request at h
  split at h
  · exact ReqResult.noConfusion h
  · split at h
    · exact ReqResult.noConfusion h
    · split at h
      · exact ReqResult.noConfusion h
      · split at h
        · exact ReqResult.noConfusion h
        · split at h
          · exact ReqResult.noConfusion h
          · split at h
            · exact ReqResult.noConfusion h
            · split at h
              · exact ReqResult.noConfusion h
              · split at h
                · rename_i s hsig
                  split at h
                  · injection h with h1
                    subst h1
                    constructor
                    · simp only [promState, settlePromise]
                      rw [alookup_updAt_ne _ _ _ _ hne]
                      exact alookup_aset_ne _ _ _ _ hne
                    · rfl
                  · have hc := hcommit _ _ _ _ _ h
                    refine ⟨hc.1.trans ?_, hc.2.trans rfl⟩
                    simp only [promState]
                    exact alookup_aset_ne _ _ _ _ hne
                · have hc := hcommit _ _ _ _ _ h
                  refine ⟨hc.1.trans ?_, hc.2.trans rfl⟩
                  simp only [promState]
                  exact alookup_aset_ne _ _ _ _ hne

/-- An abort listener firing while its pending entry exists (and a
signal was attached) settles the promise with `AbortedError(type)`. -/
theorem abortFire_settles (cfg : Config) (st : BusState) (i : String)
    (p : Pending) (q : PState)
    (hp : pendState st i = some p) (hsig : p.hasSignal = true)
    (hq : promState st i = some q) :
    promState (step cfg st (.abortFire i)) i = some (.rejectedP (.abortedE p.type)) := by
  simp only [step]
  rw [show alookup st.pending i = some p from hp]
  simp only
  rw [if_pos hsig]
  simp only [promState, settlePromise, clearPending]
  rw [alookup_updAt_self, show alookup st.promises i = some q from hq]
  rfl

theorem settleInv_after_settle (st : BusState) (id : String) (out : PState)
    (_hset : out.isSettled = true) :
    settleInvB (settlePromise (clearPending st id) id out) id = true := by
  unfold settleInvB
  simp only [promState, pendState, settlePromise, clearPending]
  rw [alookup_aerase_self, alookup_updAt_self]
  cases alookup st.promises id with
  | none => simp
  | some o => simp

theorem settleInv_after_settle_other (st : BusState) (j id : String) (out : PState)
    (hne : j ≠ id) (h : settleInvB st id = true) :
    settleInvB (settlePromise (clearPending st j) j out) id = true := by
  unfold settleInvB at h ⊢
  simp only [promState, pendState, settlePromise, clearPending]
  rw [alookup_updAt_ne _ _ _ _ hne, alookup_aerase_ne _ _ _ hne]
  exact h

theorem dispose_inv (st : BusState) (id : String) (h : settleInvB st id = true) :
    settleInvB (dispose st) id = true := by
  by_cases hd : st.disposed
  · rw [dispose_of_disposed st hd]
    exact h
  · have hp := dispose_pendState st id (by simpa using hd)
    unfold settleInvB
    rw [hp]
    cases promState (dispose st) id with
    | none => simp
    | some o => simp [hp]

/-- Every event preserves the settlement invariant, provided it does
not create a fresh request under this very id. -/
theorem step_inv (cfg : Config) (st : BusState) (e : Event) (id : String)
    (h : settleInvB st id = true) (hfresh : e.requestId ≠ some id) :
    settleInvB (step cfg st e) id = true := by
  cases e with
  | timeoutFire j =>
    simp only [step]
    cases hj : alookup st.pending j with
    | none => exact h
    | some p =>
      by_cases hij : j = id
      · subst hij
        exact settleInv_after_settle st j _ rfl
      · exact settleInv_after_settle_other st j id _ hij h
  | abortFire j =>
    simp only [step]
    cases hj : alookup st.pending j with
    | none => exact h
    | some p =>
      simp only
      by_cases hsig : p.hasSignal = true
      · rw [if_pos hsig]
        by_cases hij : j = id
        · subst hij
          exact settleInv_after_settle st j _ rfl
        · exact settleInv_after_settle_other st j id _ hij h
      · rw [if_neg hsig]
        exact h
  | receiveEv raw => exact receive_inv cfg raw st id h
  | disposeEv => exact dispose_inv st id h
  | requestEv ty pl a j n =>
    have hne : j ≠ id := by
      intro hc
      exact hfresh (by rw [hc]; rfl)
    simp only [step]
    cases hreq : request cfg st ty pl a j n with
    | threw _ => exact h
    | promised st' =>
      have ho := request_other cfg st ty pl a j n st' id hne hreq
      unfold settleInvB at h ⊢
      rw [ho.1, ho.2]
      exact h

/-- A settled promise is frozen: under the invariant, no event (short
of a fresh request reusing the id) can change its recorded outcome. -/
theorem step_frozen (cfg : Config) (st : BusState) (e : Event) (id : String) (o : PState)
    (h : settleInvB st id = true) (hq : promState st id = some o)
    (hset : o.isSettled = true) (hfresh : e.requestId ≠ some id) :
    promState (step cfg st e) id = some o := by
  have hpend : pendState st id = none := by
    unfold settleInvB at h
    rw [hq] at h
    cases hpd : pendState st id with
    | none => rfl
    | some p =>
      rw [hpd] at h
      simp [hset] at h
  cases e with
  | timeoutFire j =>
    simp only [step]
    cases hj : alookup st.pending j with
    | none => exact hq
    | some p =>
      have hij : j ≠ id := by
        intro hc
        rw [hc] at hj
        rw [show pendState st id = some p from hj] at hpend
        cases hpend
      simp only [promState, settlePromise, clearPending]
      rw [alookup_updAt_ne _ _ _ _ hij]
      exact hq
  | abortFire j =>
    simp only [step]
    cases hj : alookup st.pending j with
    | none => exact hq
    | some p =>
      have hij : j ≠ id := by
        intro hc
        rw [hc] at hj
        rw [show pendState st id = some p from hj] at hpend
        cases hpend
      simp only
      by_cases hsig : p.hasSignal = true
      · rw [if_pos hsig]
        simp only [promState, settlePromise, clearPending]
        rw [alookup_updAt_ne _ _ _ _ hij]
        exact hq
      · rw [if_neg hsig]
        exact hq
  | receiveEv raw =>
    exact (receive_frozen cfg raw st id hpend).1.trans hq
  | disposeEv =>
    exact (dispose_promState_of_nopending st id hpend).trans hq
  | requestEv ty pl a j n =>
    have hne : j ≠ id := by
      intro hc
      exact hfresh (by rw [hc]; rfl)
    simp only [step]
    cases hreq : request cfg st ty pl a j n with
    | threw _ => exact hq
    | promised st' =>
      exact (request_other cfg st ty pl a j n st' id hne hreq).1.trans hq

theorem requestIds_head {e : Event} {rest : List Event} {id : String}
    (hni : id ∉ requestIds (e :: rest)) :
    e.requestId ≠ some id ∧ id ∉ requestIds rest := by
  constructor
  · intro hc
    exact hni (List.mem_filterMap.mpr ⟨e, List.mem_cons_self _ _, hc⟩)
  · intro hc
    obtain ⟨e2, he2, heq⟩ := List.mem_filterMap.mp hc
    exact hni (List.mem_filterMap.mpr ⟨e2, List.mem_cons_of_mem _ he2, heq⟩)

theorem runTrace_inv (cfg : Config) (id : String) :
    ∀ (evs : List Event) (st : BusState), settleInvB st id = true →
    id ∉ requestIds evs → settleInvB (runTrace cfg st evs) id = true := by
  intro evs
  induction evs with
  | nil => intro st h _; exact h
  | cons e rest ih =>
    intro st h hni
    obtain ⟨h1, h2⟩ := requestIds_head hni
    exact ih _ (step_inv cfg st e id h h1) h2

theorem runTrace_frozen (cfg : Config) (id : String) (o : PState)
    (hset : o.isSettled = true) :
    ∀ (evs : List Event) (st : BusState), settleInvB st id = true →
    promState st id = some o → id ∉ requestIds evs →
    promState (runTrace cfg st evs) id = some o := by
  intro evs
  induction evs with
  | nil => intro st _ hq _; exact hq
  | cons e rest ih =>
    intro st h hq hni
    obtain ⟨h1, h2⟩ := requestIds_head hni
    exact ih _ (step_inv cfg st e id h h1) (step_frozen cfg st e id o h hq hset h1) h2

/-- A successful `request` call establishes the settlement invariant
for its fresh correlation id. -/
theorem request_post (cfg : Config) (st : BusState) (type : String) (payload : Value)
    (arg : ReqArg) (id nonce : String) (st' : BusState)
    (hreq : request cfg st type payload arg id nonce = .promised st')
    (hfresh : pendState st id = none) :
    settleInvB st' id = true := by
  have hcommit : ∀ (st1 : BusState) ty ert hs tmo,
      promState st1 id = some .unsettled →
      requestCommit cfg st1 ty payload id nonce ert hs tmo = .promised st' →
      settleInvB st' id = true := by
    intro st1 ty ert hs tmo hpr hc
    unfold requestCommit at hc
    dsimp only at hc
    split at hc
    · rename_i st3 hse
      injection hc with hc1
      subst hc1
      have hcore := sendEnvelope_ok_core _ _ _ _ _ _ hse
      have hprom : promState st3 id = some .unsettled := by
        show alookup st3.promises id = some .unsettled
        rw [hcore.2.2.1]
        exact hpr
      have hpend : pendState st3 id =
          some { type := ty, expectedResponseType := ert, nonce := nonce,
                 hasSignal := hs, timeoutMs := tmo } := by
        show alookup st3.pending id = _
        rw [hcore.2.1]
        exact alookup_aset_self _ _ _
      unfold settleInvB
      rw [hprom, hpend]
      simp [PState.isSettled]
    · injection hc with hc1
      subst hc1
      unfold settleInvB
      simp only [promState, pendState, settlePromise, clearPending]
      rw [alookup_aerase_self, alookup_updAt_self,
        show alookup st1.promises id = some .unsettled from hpr]
      simp
  unfold request at hreq
  split at hreq
  · exact ReqResult.noConfusion hreq
  · split at hreq
    · exact ReqResult.noConfusion hreq
    · split at hreq
      · exact ReqResult.noConfusion hreq
      · split at hreq
        · exact ReqResult.noConfusion hreq
        · split at hreq
          · exact ReqResult.noConfusion hreq
          · split at hreq
            · exact ReqResult.noConfusion hreq
            · split at hreq
              · exact ReqResult.noConfusion hreq
              · split at hreq
                · rename_i s hsig
                  split at hreq
                  · injection hreq with h1
                    subst h1
                    unfold settleInvB
                    simp only [promState, pendState, settlePromise]
                    rw [alookup_updAt_self, alookup_aset_self,
                      show alookup st.pending id = none from hfresh]
                    simp
                  · exact hcommit _ _ _ _ _ (by
                      simp only [promState]
                      exact alookup_aset_self _ _ _) hreq
                · exact hcommit _ _ _ _ _ (by
                    simp only [promState]
                    exact alookup_aset_self _ _ _) hreq

/-!
Claim C1: the promise returned by `request` is settled exactly once,
by exactly one of: a matching trusted response, `TimeoutError` on
timer fire, `AbortedError` on abort, `DisposedError` on dispose, or
the error thrown while sending; after the first of these clears the
pending entry, the remaining mechanisms are no-ops for that request.
-/

/-- Claim C1: a `request` call that returns a promise (fresh
correlation id) establishes the settlement invariant; under any
subsequent event interleaving that does not reuse the id, once the
promise is settled (by whichever mechanism fired first, which cleared
the pending entry) every later event leaves the recorded outcome
unchanged — timer fire, abort, responses and dispose are no-ops — and
while the entry is still live, the timer settles the promise with
`TimeoutError`, an attached abort signal with `AbortedError`, and
`dispose` with `DisposedError`. -/
theorem request_promise_settled_once (cfg : Config) (st : BusState) (type : String)
    (payload : Value) (arg : ReqArg) (id nonce : String) (st' : BusState)
    (hreq : request cfg st type payload arg id nonce = .promised st')
    (hfresh : pendState st id = none) :
    settleInvB st' id = true ∧
    (∀ evs o, id ∉ requestIds evs →
      promState (runTrace cfg st' evs) id = some o → o.isSettled = true →
      ∀ evs2, id ∉ requestIds evs2 →
        promState (runTrace cfg (runTrace cfg st' evs) evs2) id = some o) ∧
    (∀ evs p q, id ∉ requestIds evs →
      pendState (runTrace cfg st' evs) id = some p →
      promState (runTrace cfg st' evs) id = some q →
      promState (step cfg (runTrace cfg st' evs) (.timeoutFire id)) id =
        some (.rejectedP (.timeoutE p.type p.timeoutMs)) ∧
      (p.hasSignal = true →
        promState (step cfg (runTrace cfg st' evs) (.abortFire id)) id =
          some (.rejectedP (.abortedE p.type))) ∧
      ((runTrace cfg st' evs).disposed = false →
        promState (dispose (runTrace cfg st' evs)) id =
          some (.rejectedP (.disposedE "Bus disposed while awaiting response.")))) := by
  have hpost := request_post cfg st type payload arg id nonce st' hreq hfresh
  refine ⟨hpost, ?_, ?_⟩
  · intro evs o hni hsettled hset evs2 hni2
    have hinv1 := runTrace_inv cfg id evs st' hpost hni
    exact runTrace_frozen cfg id o hset evs2 _ hinv1 hsettled hni2
  · intro evs p q hni hp hq
    exact ⟨timeoutFire_settles cfg _ id p q hp hq,
      fun hsig => abortFire_settles cfg _ id p q hp hsig hq,
      fun hd => dispose_promState_of_pending _ id hd p q hp hq⟩

/-- The state after a witness `request` on a fresh bus. -/
def stReq : BusState :=
  match request cfgA st0 "get" (.strV "p") .noArg "id1" "n1" with
  | .promised s => s
  | .threw _ => st0

/-- A legitimate but late response for the witness request. -/
def lateResp : Value :=
  mkObj [("type", .strV "get-response"), ("id", .strV "id1"), ("nonce", .strV "n1"),
    ("payload", .strV "x")]

theorem request_promise_settled_once_witness :
    request cfgA st0 "get" (.strV "p") .noArg "id1" "n1" = .promised stReq ∧
    pendState st0 "id1" = none ∧
    pendState stReq "id1" = some pendR1 ∧
    promState stReq "id1" = some .unsettled ∧
    promState (step cfgA stReq (.timeoutFire "id1")) "id1" =
      some (.rejectedP (.timeoutE "get" 5000)) ∧
    promState (runTrace cfgA (runTrace cfgA stReq [.timeoutFire "id1"])
        [.receiveEv (.rawVal lateResp)]) "id1" =
      some (.rejectedP (.timeoutE "get" 5000)) := by
  have h := request_promise_settled_once cfgA st0 "get" (.strV "p") .noArg "id1" "n1"
    stReq rfl (by decide)
  have hmech := h.2.2 [] pendR1 .unsettled (by decide) (by decide) (by decide)
  have hfrozen := h.2.1 [.timeoutFire "id1"] (.rejectedP (.timeoutE "get" 5000))
    (by decide) (by decide) rfl [.receiveEv (.rawVal lateResp)] (by decide)
  exact ⟨rfl, by decide, by decide, by decide, hmech.1, hfrozen⟩

end SimplexBus
